import Mathlib

/-!
Shallow embedding of `src/hotel_analysis.py` (a hotel price analysis script).

Python numeric values in this program are produced by `json.loads` and
`float(...)` applied to decimal literals, then combined only by addition and
comparison.  We model them exactly as unnormalized decimal fixed-point
numbers: an integer mantissa together with a power-of-ten denominator
(`PyNum`), with `toRat` giving their mathematical value.  This is an exact
model of the decimal arithmetic the script performs; IEEE-754 rounding of
binary doubles is abstracted away (the spec itself leaves the half-cent
rounding rule of the source unspecified).

Python exceptions are modeled by the enumeration `PyErr`; each constructor
is documented with the concrete Python exception it stands for.
-/

/-- `pow10 e = 10 ^ e` as an integer, written recursively so the kernel
reduces it. -/
def pow10 : Nat → Int
  | 0 => 1
  | n + 1 => 10 * pow10 n

theorem pow10_eq (n : Nat) : pow10 n = (10 : Int) ^ n := by
  induction n with
  | zero => rfl
  | succ k ih => rw [pow10, ih, pow_succ]; ring

theorem pow10_pos (n : Nat) : 0 < pow10 n := by
  rw [pow10_eq]; positivity

/-- Exact decimal number: the value `mant / 10 ^ exp`.  Models the Python
floats occurring in the script (all of which come from decimal text). -/
structure PyNum where
  mant : Int
  exp : Nat
deriving DecidableEq, Repr

namespace PyNum

/-- Mathematical value of a `PyNum`. -/
def toRat (a : PyNum) : ℚ := (a.mant : ℚ) / (10 : ℚ) ^ a.exp

/-- Addition, exactly as on the underlying rationals (Python `+`). -/
def add (a b : PyNum) : PyNum :=
  ⟨a.mant * pow10 b.exp + b.mant * pow10 a.exp, a.exp + b.exp⟩

/-- Strict comparison (Python `<`). -/
def lt (a b : PyNum) : Prop := a.mant * pow10 b.exp < b.mant * pow10 a.exp

/-- Non-strict comparison. -/
def le (a b : PyNum) : Prop := a.mant * pow10 b.exp ≤ b.mant * pow10 a.exp

instance : DecidablePred fun p : PyNum × PyNum => lt p.1 p.2 := fun _ => by
  unfold lt; infer_instance

instance decLt (a b : PyNum) : Decidable (lt a b) := by unfold lt; infer_instance

instance decLe (a b : PyNum) : Decidable (le a b) := by unfold le; infer_instance

theorem ten_pow_pos (n : Nat) : (0 : ℚ) < (10 : ℚ) ^ n := by positivity

theorem toRat_add (a b : PyNum) : (add a b).toRat = a.toRat + b.toRat := by
  unfold add toRat
  push_cast [pow10_eq]
  rw [div_add_div _ _ (ne_of_gt (ten_pow_pos a.exp)) (ne_of_gt (ten_pow_pos b.exp))]
  rw [pow_add]
  ring_nf

theorem lt_iff_toRat (a b : PyNum) : lt a b ↔ a.toRat < b.toRat := by
  unfold lt toRat
  rw [div_lt_div_iff₀ (ten_pow_pos a.exp) (ten_pow_pos b.exp), pow10_eq, pow10_eq]
  constructor
  · intro h; exact_mod_cast h
  · intro h; exact_mod_cast h

theorem le_iff_toRat (a b : PyNum) : le a b ↔ a.toRat ≤ b.toRat := by
  unfold le toRat
  rw [div_le_div_iff₀ (ten_pow_pos a.exp) (ten_pow_pos b.exp), pow10_eq, pow10_eq]
  constructor
  · intro h; exact_mod_cast h
  · intro h; exact_mod_cast h

theorem le_of_not_lt {a b : PyNum} (h : ¬ lt a b) : le b a := by
  rw [le_iff_toRat]; rw [lt_iff_toRat] at h; exact not_lt.mp h

theorem le_trans {a b c : PyNum} (h1 : le a b) (h2 : le b c) : le a c := by
  rw [le_iff_toRat] at *; exact h1.trans h2

theorem lt_le_trans {a b c : PyNum} (h1 : lt a b) (h2 : le b c) : lt a c := by
  rw [lt_iff_toRat] at *; rw [le_iff_toRat] at h2; exact h1.trans_le h2

theorem le_refl (a : PyNum) : le a a := by rw [le_iff_toRat]

theorem le_of_lt {a b : PyNum} (h : lt a b) : le a b := by
  rw [le_iff_toRat]; rw [lt_iff_toRat] at h; exact h.le

end PyNum

/-- Python exceptions that the script can raise, named after the concrete
Python exception classes (the spec's error taxonomy maps onto them as noted). -/
inductive PyErr where
  /-- `json.JSONDecodeError` from `json.loads` (the spec's `ParseError`). -/
  | parseError
  /-- `ValueError` from `float(s)` on a non-numeric string
  (the spec's `ConversionError`). -/
  | conversionError
  /-- `TypeError` (non-subscriptable value, `float(None)`, or formatting
  `None` with `:.2f`). -/
  | typeError
  /-- `AttributeError` (`.values()` / `.items()` on a non-dict). -/
  | attributeError
  /-- `KeyError` from a missing dictionary key. -/
  | keyError
  /-- `IndexError` from an out-of-range list index. -/
  | indexError
  /-- The spec's `EmptyInputError`.  Declared so the spec's claim can be
  stated; the source never raises it. -/
  | emptyInputError
deriving DecidableEq, Repr

/-- JSON values as produced by Python's `json.loads`. -/
inductive JValue where
  | null
  | bool (b : Bool)
  | num (q : PyNum)
  | str (s : String)
  | arr (xs : List JValue)
  | obj (kvs : List (String × JValue))

/-- Python dict insertion `d[k] = v`: if the key is present its value is
replaced in place, otherwise the pair is appended (CPython dicts preserve
first-insertion order and keep the latest value). -/
def dictInsert {α : Type} (kvs : List (String × α)) (k : String) (v : α) :
    List (String × α) :=
  if kvs.any (fun p => p.1 = k) then
    kvs.map (fun p => if p.1 = k then (k, v) else p)
  else kvs ++ [(k, v)]

/-- Python dict lookup `d[k]` (first matching key; on dicts built by
`dictInsert` keys are unique). -/
def dictLookup {α : Type} (kvs : List (String × α)) (k : String) : Option α :=
  match kvs with
  | [] => none
  | (k2, v) :: rest => if k2 = k then some v else dictLookup rest k

/-- Whitespace accepted (and stripped) by Python's `float(str)`. -/
def isSpaceChar (c : Char) : Bool :=
  c == ' ' || c == '\t' || c == '\n' || c == '\r' || c == '\x0b' || c == '\x0c'

/-- Strip leading and trailing whitespace, as `float(str)` does. -/
def stripChars (cs : List Char) : List Char :=
  ((cs.dropWhile isSpaceChar).reverse.dropWhile isSpaceChar).reverse

def digitVal (c : Char) : Nat := c.toNat - 48

def natOfDigits (ds : List Char) : Nat :=
  ds.foldl (fun a c => a * 10 + digitVal c) 0

/-- Optional sign (Python `float(str)` accepts both `+` and `-`). -/
def parseSign : List Char → (Bool × List Char)
  | '-' :: r => (true, r)
  | '+' :: r => (false, r)
  | cs => (false, cs)

/-- Assemble a decimal value from sign, integer digits, fraction digits and
a signed decimal exponent. -/
def mkFromParts (neg : Bool) (ip fp : List Char) (eneg : Bool) (ed : List Char) :
    PyNum :=
  let m : Int := (natOfDigits (ip ++ fp) : Int)
  let m := if neg then -m else m
  let e := natOfDigits ed
  if eneg then ⟨m, fp.length + e⟩ else ⟨m * pow10 e, fp.length⟩

/-- Exponent suffix of a `float(str)` literal; the whole remainder must be
consumed. -/
def parseFloatExp (neg : Bool) (ip fp : List Char) : List Char → Option PyNum
  | [] => some (mkFromParts neg ip fp false [])
  | c :: r =>
    if c == 'e' || c == 'E' then
      let (eneg, r1) := parseSign r
      let ed := r1.takeWhile Char.isDigit
      let r2 := r1.dropWhile Char.isDigit
      if ed.isEmpty || !r2.isEmpty then none
      else some (mkFromParts neg ip fp eneg ed)
    else none

/-- Body of Python's `float(str)` on a whitespace-stripped character list:
optional sign, digits with an optional decimal point (at least one digit),
optional exponent.  (`inf`, `nan` and underscore separators are not decimal
numbers and are treated as failures in this exact-decimal model.) -/
def parseFloatChars (cs : List Char) : Option PyNum :=
  let (neg, cs1) := parseSign cs
  let ip := cs1.takeWhile Char.isDigit
  let cs2 := cs1.dropWhile Char.isDigit
  match cs2 with
  | '.' :: cs3 =>
    let fp := cs3.takeWhile Char.isDigit
    let cs4 := cs3.dropWhile Char.isDigit
    if ip.isEmpty && fp.isEmpty then none
    else parseFloatExp neg ip fp cs4
  | _ => if ip.isEmpty then none else parseFloatExp neg ip [] cs2

/-- Python `float(str)`: `some` value on a numeric string, `none` where
Python raises `ValueError`. -/
def pyFloatOfString (s : String) : Option PyNum :=
  parseFloatChars (stripChars s.toList)

/-- Python `float(x)` on a JSON value, as used at lines 29 and 52 of the
source: numbers pass through, numeric strings are parsed (`ValueError`,
i.e. `conversionError`, if non-numeric), booleans give 0/1, and every other
value raises `TypeError`. -/
def pyFloat : JValue → Except PyErr PyNum
  | .num q => .ok q
  | .str s =>
    match pyFloatOfString s with
    | some q => .ok q
    | none => .error .conversionError
  | .bool b => .ok ⟨if b then 1 else 0, 0⟩
  | .null => .error .typeError
  | .arr _ => .error .typeError
  | .obj _ => .error .typeError

def digitChar (n : Nat) : Char := Char.ofNat (48 + n)

/-- `q * 100` rounded to the nearest integer, ties to even: the value of
`f"\x7bq:.2f\x7d"` scaled by 100 (round-half-even, the rule the spec
elects in its section 9). -/
def round2 (q : PyNum) : Int :=
  let p : Int := q.mant * 100
  let d : Int := pow10 q.exp
  let fl := Int.fdiv p d
  let r := p - fl * d
  if 2 * r < d then fl
  else if d < 2 * r then fl + 1
  else if fl % 2 = 0 then fl else fl + 1

/-- Python's `f"\x7bx:.2f\x7d"`: sign, integer part, then a dot and exactly
two fraction digits. -/
def format2 (q : PyNum) : String :=
  let n := round2 q
  let sign := if n < 0 then "-" else ""
  let m := n.natAbs
  sign ++ toString (m / 100) ++ String.mk ['.', digitChar (m / 10 % 10), digitChar (m % 10)]

/-- Opening brace character. -/
def lbraceC : Char := Char.ofNat 123

/-- Closing brace character. -/
def rbraceC : Char := Char.ofNat 125

/-- JSON insignificant whitespace. -/
def isJsonWs (c : Char) : Bool := c == ' ' || c == '\t' || c == '\n' || c == '\r'

def skipWs : List Char → List Char
  | [] => []
  | c :: r => if isJsonWs c then skipWs r else c :: r

def hexDigitVal (c : Char) : Option Nat :=
  if c.isDigit then some (c.toNat - 48)
  else if 'a' ≤ c && c ≤ 'f' then some (c.toNat - 87)
  else if 'A' ≤ c && c ≤ 'F' then some (c.toNat - 55)
  else none

/-- The single-character escapes of JSON strings, mapped to the character
each denotes. -/
def escChar : Char → Option Char
  | '"' => some '"'
  | '\\' => some '\\'
  | '/' => some '/'
  | 'b' => some (Char.ofNat 8)
  | 'f' => some (Char.ofNat 12)
  | 'n' => some '\n'
  | 'r' => some '\r'
  | 't' => some '\t'
  | _ => none

/-- JSON string body, entered after the opening quote: returns the decoded
characters and the remainder after the closing quote.  Raw control
characters are rejected, escapes are decoded (as in Python's strict
`json.loads`). -/
def parseJStringChars (fuel : Nat) (cs : List Char) :
    Option (List Char × List Char) :=
  match fuel, cs with
  | 0, _ => none
  | _, [] => none
  | fuel + 1, c :: rest =>
    if c == '"' then some ([], rest)
    else if c == '\\' then
      match rest with
      | [] => none
      | e :: rest2 =>
        if e == 'u' then
          match rest2 with
          | a :: b :: c3 :: d :: rest3 =>
            match hexDigitVal a, hexDigitVal b, hexDigitVal c3, hexDigitVal d with
            | some x, some y, some z, some w =>
              (fun pr => (Char.ofNat (((x * 16 + y) * 16 + z) * 16 + w) :: pr.1, pr.2)) <$>
                parseJStringChars fuel rest3
            | _, _, _, _ => none
          | _ => none
        else
          match escChar e with
          | some ec => (fun pr => (ec :: pr.1, pr.2)) <$> parseJStringChars fuel rest2
          | none => none
    else if c.toNat < 32 then none
    else (fun pr => (c :: pr.1, pr.2)) <$> parseJStringChars fuel rest

/-- Exponent and assembly part of a JSON number. -/
def parseJNumExp (neg : Bool) (ip fp : List Char) (cs : List Char) :
    Option (PyNum × List Char) :=
  match cs with
  | c :: r =>
    if c == 'e' || c == 'E' then
      let (eneg, r1) := parseSign r
      let ed := r1.takeWhile Char.isDigit
      let r2 := r1.dropWhile Char.isDigit
      if ed.isEmpty then none
      else some (mkFromParts neg ip fp eneg ed, r2)
    else some (mkFromParts neg ip fp false [], cs)
  | [] => some (mkFromParts neg ip fp false [], [])

/-- A JSON number token: `-?int frac? exp?` with the leading-zero rule. -/
def parseJNumber (cs : List Char) : Option (PyNum × List Char) :=
  let (neg, cs1) := match cs with
    | '-' :: r => (true, r)
    | _ => (false, cs)
  let ip := cs1.takeWhile Char.isDigit
  let cs2 := cs1.dropWhile Char.isDigit
  if ip.isEmpty then none
  else if ip.length > 1 && ip.headD '0' == '0' then none
  else
    match cs2 with
    | '.' :: cs3 =>
      let fp := cs3.takeWhile Char.isDigit
      let cs4 := cs3.dropWhile Char.isDigit
      if fp.isEmpty then none else parseJNumExp neg ip fp cs4
    | _ => parseJNumExp neg ip [] cs2

/-- Parser modes: a JSON value, the members of an object after its opening
brace, or the items of an array after its opening bracket. -/
inductive PMode where
  | value
  | members (acc : List (String × JValue))
  | items (acc : List JValue)

/-- Recursive-descent JSON parser (fuel-based so that it is structurally
recursive and kernel-computable).  Objects are built with `dictInsert`,
matching CPython's duplicate-key handling. -/
def parseJ : Nat → PMode → List Char → Option (JValue × List Char)
  | 0, _, _ => none
  | fuel + 1, .value, cs =>
    match skipWs cs with
    | [] => none
    | c :: rest =>
      if c == lbraceC then
        match skipWs rest with
        | c2 :: r2 =>
          if c2 == rbraceC then some (.obj [], r2)
          else parseJ fuel (.members []) rest
        | [] => none
      else if c == '[' then
        match skipWs rest with
        | c2 :: r2 =>
          if c2 == ']' then some (.arr [], r2)
          else parseJ fuel (.items []) rest
        | [] => none
      else if c == '"' then
        (fun pr => (JValue.str (String.mk pr.1), pr.2)) <$>
          parseJStringChars (rest.length + 1) rest
      else if c == 't' then
        match rest with
        | c1 :: c2 :: c3 :: r =>
          if c1 == 'r' && c2 == 'u' && c3 == 'e' then some (.bool true, r)
          else none
        | _ => none
      else if c == 'f' then
        match rest with
        | c1 :: c2 :: c3 :: c4 :: r =>
          if c1 == 'a' && c2 == 'l' && c3 == 's' && c4 == 'e' then
            some (.bool false, r)
          else none
        | _ => none
      else if c == 'n' then
        match rest with
        | c1 :: c2 :: c3 :: r =>
          if c1 == 'u' && c2 == 'l' && c3 == 'l' then some (.null, r)
          else none
        | _ => none
      else if c == '-' || c.isDigit then
        (fun pr => (JValue.num pr.1, pr.2)) <$> parseJNumber (c :: rest)
      else none
  | fuel + 1, .members acc, cs =>
    match skipWs cs with
    | c :: r =>
      if c == '"' then
        match parseJStringChars (r.length + 1) r with
        | none => none
        | some (key, r2) =>
          match skipWs r2 with
          | c3 :: r3 =>
            if c3 == ':' then
              match parseJ fuel .value r3 with
              | none => none
              | some (v, r4) =>
                match skipWs r4 with
                | c5 :: r5 =>
                  if c5 == ',' then
                    parseJ fuel (.members (dictInsert acc (String.mk key) v)) r5
                  else if c5 == rbraceC then
                    some (.obj (dictInsert acc (String.mk key) v), r5)
                  else none
                | [] => none
            else none
          | [] => none
      else none
    | [] => none
  | fuel + 1, .items acc, cs =>
    match parseJ fuel .value cs with
    | none => none
    | some (v, r) =>
      match skipWs r with
      | c2 :: r2 =>
        if c2 == ',' then parseJ fuel (.items (acc ++ [v])) r2
        else if c2 == ']' then some (.arr (acc ++ [v]), r2)
        else none
      | [] => none

/-- Python's `json.loads` on a string (line 28 of the source): parse one
JSON value, allow surrounding whitespace, reject trailing content.  Every
failure is `json.JSONDecodeError`, i.e. `parseError`. -/
def json_loads (s : String) : Except PyErr JValue :=
  let cs := s.toList
  match parseJ (2 * cs.length + 8) .value cs with
  | some (v, rest) => if (skipWs rest).isEmpty then .ok v else .error .parseError
  | none => .error .parseError

/-- Left-to-right sum of `float(value) for value in taxes.values()` as in
line 29 of the source: the first non-convertible value aborts with its
exception, otherwise the exact sum is returned (0 for an empty object). -/
def sumFloats : List JValue → Except PyErr PyNum
  | [] => .ok ⟨0, 0⟩
  | v :: rest =>
    match pyFloat v with
    | .error e => .error e
    | .ok q =>
      match sumFloats rest with
      | .error e => .error e
      | .ok r => .ok (PyNum.add q r)

/-- `parse_taxes` (lines 18-29 of the source): `json.loads` the string,
then sum `float(value)` over the dictionary values.  A non-dict result has
no `.values()` attribute, hence `AttributeError`. -/
def parse_taxes (taxes_json : String) : Except PyErr PyNum :=
  match json_loads taxes_json with
  | .error e => .error e
  | .ok (.obj kvs) => sumFloats (kvs.map Prod.snd)
  | .ok _ => .error .attributeError

/-- `shown_prices.items()` (line 51): the key/value pairs of a dict,
`AttributeError` on any non-dict value. -/
def pyItems : JValue → Except PyErr (List (String × JValue))
  | .obj kvs => .ok kvs
  | _ => .error .attributeError

/-- One update of the cheapest-so-far state (lines 56-59 of the source):
replace the stored room exactly when the candidate price is strictly
smaller, or when nothing is stored yet. -/
def stepMin (a : Option String × Option PyNum) (k : String) (q : PyNum) :
    Option String × Option PyNum :=
  match a with
  | (_, none) => (some k, some q)
  | (cr, some c) => if PyNum.lt q c then (some k, some q) else (cr, some c)

/-- The loop body of `find_and_calculate_room_prices` (lines 51-59),
threading the accumulators `cheapest_room`/`cheapest_price`/`room_totals`.
Conversion failure aborts the whole call, as the uncaught Python exception
does. -/
def findLoop (total_taxes : PyNum) :
    List (String × JValue) → Option String × Option PyNum →
    List (String × String) →
    Except PyErr (Option String × Option PyNum × List (String × String))
  | [], a, rt => .ok (a.1, a.2, rt)
  | (room_type, pv) :: rest, a, rt =>
    match pyFloat pv with
    | .error e => .error e
    | .ok price =>
      findLoop total_taxes rest (stepMin a room_type price)
        (dictInsert rt room_type (format2 (PyNum.add price total_taxes)))

/-- `find_and_calculate_room_prices` (lines 32-62 of the source): takes the
`shown_price` value (a JSON value; `.items()` raises `AttributeError` on a
non-dict) and the total taxes, returns
`(cheapest_room, cheapest_price, room_totals)`. -/
def find_and_calculate_room_prices (shown_prices : JValue) (total_taxes : PyNum) :
    Except PyErr (Option String × Option PyNum × List (String × String)) :=
  match pyItems shown_prices with
  | .error e => .error e
  | .ok kvs => findLoop total_taxes kvs (none, none) []

/-- Python subscript `d[k]` on a JSON value (lines 90-95): dict lookup with
`KeyError` on a missing key, `TypeError` on lists (string index) and other
non-subscriptable values; a string subscripted by a string also raises
`TypeError`. -/
def getItem (v : JValue) (k : String) : Except PyErr JValue :=
  match v with
  | .obj kvs =>
    match dictLookup kvs k with
    | some x => .ok x
    | none => .error .keyError
  | _ => .error .typeError

/-- Python subscript `x[0]` (line 90): list indexing with `IndexError` when
empty, one-character string for strings, `KeyError` for dicts (0 is not a
string key), `TypeError` otherwise. -/
def getIndex0 (v : JValue) : Except PyErr JValue :=
  match v with
  | .arr [] => .error .indexError
  | .arr (x :: _) => .ok x
  | .str s =>
    match s.toList with
    | [] => .error .indexError
    | c :: _ => .ok (.str (String.mk [c]))
  | .obj _ => .error .keyError
  | _ => .error .typeError

/-- Argument check of `json.loads(x)` (line 95): only strings are accepted
here; passing a dict, list, number, boolean or `None` raises `TypeError`. -/
def asJsonText : JValue → Except PyErr String
  | .str s => .ok s
  | _ => .error .typeError

/-- `f"\x7bcheapest_price:.2f\x7d"` at line 104: formatting `None` with a
float format spec raises `TypeError`. -/
def formatCheapest : Option PyNum → Except PyErr String
  | some q => .ok (format2 q)
  | none => .error .typeError

/-- The `cheapest_info` record assembled at lines 101-105. -/
structure CheapestInfo where
  room_type : Option String
  number_of_guests : JValue
  price : String

/-- The `output` record assembled at lines 108-111 and written to the
output file. -/
structure OutputDoc where
  cheapest_price_info : CheapestInfo
  room_totals : List (String × String)

/-- The three console lines printed at lines 117-119: the formatted
cheapest price, the cheapest-info record, and the room totals. -/
structure ConsoleOut where
  line1 : String
  line2 : CheapestInfo
  line3 : List (String × String)

/-- `assignment_results[0]` extraction (line 90). -/
def extractFirstResult (doc : JValue) : Except PyErr JValue :=
  match getItem doc "assignment_results" with
  | .error e => .error e
  | .ok rs => getIndex0 rs

/-- `main` (lines 77-119) from the already-loaded input document onward:
extract the fields, aggregate the taxes, resolve the prices, assemble the
output record, and produce the console lines.  The `.ok` result carries
exactly what the Writer serializes and what is printed; any Python
exception aborts the run before the file write. -/
def mainOn (doc : JValue) : Except PyErr (OutputDoc × ConsoleOut) :=
  match extractFirstResult doc with
  | .error e => .error e
  | .ok first =>
    match getItem first "shown_price" with
    | .error e => .error e
    | .ok shown_prices =>
      match getItem first "number_of_guests" with
      | .error e => .error e
      | .ok number_of_guests =>
        match getItem first "ext_data" with
        | .error e => .error e
        | .ok ext_data =>
          match getItem ext_data "taxes" with
          | .error e => .error e
          | .ok taxes_field =>
            match asJsonText taxes_field with
            | .error e => .error e
            | .ok taxes_text =>
              match parse_taxes taxes_text with
              | .error e => .error e
              | .ok total_taxes =>
                match find_and_calculate_room_prices shown_prices total_taxes with
                | .error e => .error e
                | .ok res =>
                  match formatCheapest res.2.1 with
                  | .error e => .error e
                  | .ok price_str =>
                    let cheapest_info : CheapestInfo :=
                      ⟨res.1, number_of_guests, price_str⟩
                    .ok (⟨cheapest_info, res.2.2⟩,
                         ⟨price_str, cheapest_info, res.2.2⟩)

/-- The whole run including the Loader: `read_json_file` (lines 4-15) is
I/O whose outcome we model as an `Except` input — a missing or unreadable
file or malformed file contents arrive as an error, which `main` never
catches. -/
def main_pipeline (loaded : Except PyErr JValue) :
    Except PyErr (OutputDoc × ConsoleOut) :=
  match loaded with
  | .error e => .error e
  | .ok doc => mainOn doc

/-- Contents of the output file after the run: the Writer (lines 65-74,
called at line 114) runs only when every prior stage succeeded, so an
erroring run leaves no file. -/
def writtenFile (doc : JValue) : Option OutputDoc :=
  match mainOn doc with
  | .ok (o, _) => some o
  | .error _ => none

/-! ### Specification-side helpers

These definitions restate pieces of the loop functionally so the claims can
be phrased and proved; they are related to the source translation by the
lemmas that follow. -/

/-- Convert each price with `pyFloat`, keeping keys; first failure wins. -/
def convertPrices : List (String × JValue) → Except PyErr (List (String × PyNum))
  | [] => .ok []
  | (k, v) :: rest =>
    match pyFloat v with
    | .error e => .error e
    | .ok q =>
      match convertPrices rest with
      | .error e => .error e
      | .ok l => .ok ((k, q) :: l)

/-- Convert each tax value with `pyFloat`; first failure wins. -/
def convertVals : List JValue → Except PyErr (List PyNum)
  | [] => .ok []
  | v :: rest =>
    match pyFloat v with
    | .error e => .error e
    | .ok q =>
      match convertVals rest with
      | .error e => .error e
      | .ok l => .ok (q :: l)

/-- The cheapest-so-far state after a list of already-converted entries. -/
def foldMinL (l : List (String × PyNum)) (a : Option String × Option PyNum) :
    Option String × Option PyNum :=
  l.foldl (fun a p => stepMin a p.1 p.2) a

/-- The accumulated `room_totals` after a list of already-converted entries. -/
def foldTotals (t : PyNum) (l : List (String × PyNum))
    (rt : List (String × String)) : List (String × String) :=
  l.foldl (fun rt p => dictInsert rt p.1 (format2 (PyNum.add p.2 t))) rt

/-- First-encountered minimum of a key/price list (ties keep the earlier
entry). -/
def firstMinRec : List (String × PyNum) → Option (String × PyNum)
  | [] => none
  | p :: rest =>
    match firstMinRec rest with
    | none => some p
    | some q => if PyNum.lt q.2 p.2 then some q else some p

theorem PyNum.lt_trans {a b c : PyNum} (h1 : lt a b) (h2 : lt b c) : lt a c := by
  rw [lt_iff_toRat] at *; exact h1.trans h2

theorem PyNum.not_lt_of_le {a b : PyNum} (h : le a b) : ¬ lt b a := by
  rw [le_iff_toRat] at h; rw [lt_iff_toRat]; exact not_lt.mpr h

/-- The loop of `find_and_calculate_room_prices` factors, on successfully
converted inputs, into the cheapest-so-far fold and the totals fold. -/
theorem findLoop_factor (t : PyNum) (kvs : List (String × JValue)) :
    ∀ (l : List (String × PyNum)) (a : Option String × Option PyNum)
      (rt : List (String × String)), convertPrices kvs = .ok l →
      findLoop t kvs a rt = .ok ((foldMinL l a).1, (foldMinL l a).2, foldTotals t l rt) := by
  induction kvs with
  | nil =>
    intro l a rt h
    simp only [convertPrices, Except.ok.injEq] at h
    subst h
    rfl
  | cons p rest ih =>
    intro l a rt h
    obtain ⟨k, v⟩ := p
    simp only [convertPrices] at h
    cases hq : pyFloat v with
    | error e => rw [hq] at h; exact absurd h (by simp)
    | ok q =>
      rw [hq] at h
      cases hrest : convertPrices rest with
      | error e => rw [hrest] at h; exact absurd h (by simp)
      | ok l2 =>
        rw [hrest] at h
        simp only [Except.ok.injEq] at h
        subst h
        simp only [findLoop, hq]
        rw [ih l2 (stepMin a k q) (dictInsert rt k (format2 (PyNum.add q t))) hrest]
        rfl

/-- A successful loop run implies every price converted. -/
theorem findLoop_ok_convert (t : PyNum) (kvs : List (String × JValue)) :
    ∀ (a : Option String × Option PyNum) (rt : List (String × String)) res,
      findLoop t kvs a rt = .ok res → ∃ l, convertPrices kvs = .ok l := by
  induction kvs with
  | nil => intro a rt res _; exact ⟨[], rfl⟩
  | cons p rest ih =>
    intro a rt res h
    obtain ⟨k, v⟩ := p
    simp only [findLoop] at h
    cases hq : pyFloat v with
    | error e => rw [hq] at h; exact absurd h (by simp)
    | ok q =>
      rw [hq] at h
      obtain ⟨l2, hl2⟩ := ih _ _ _ h
      exact ⟨(k, q) :: l2, by simp only [convertPrices, hq, hl2]⟩

theorem firstMinRec_cons (hd : String × PyNum) (rest : List (String × PyNum)) :
    ∃ p, firstMinRec (hd :: rest) = some p := by
  rw [firstMinRec]
  cases firstMinRec rest with
  | none => exact ⟨hd, rfl⟩
  | some q =>
    by_cases hlt : PyNum.lt q.2 hd.2
    · exact ⟨q, if_pos hlt⟩
    · exact ⟨hd, if_neg hlt⟩

theorem firstMinRec_nil_iff (l : List (String × PyNum)) :
    firstMinRec l = none ↔ l = [] := by
  cases l with
  | nil => simp [firstMinRec]
  | cons hd rest =>
    obtain ⟨p, hp⟩ := firstMinRec_cons hd rest
    rw [hp]
    constructor
    · intro h; exact Option.noConfusion h
    · intro h; exact List.noConfusion h

theorem firstMinRec_mem {l : List (String × PyNum)} {p : String × PyNum}
    (h : firstMinRec l = some p) : p ∈ l := by
  induction l with
  | nil => exact absurd h (by simp [firstMinRec])
  | cons hd rest ih =>
    cases hq : firstMinRec rest with
    | none =>
      simp only [firstMinRec, hq, Option.some.injEq] at h
      subst h
      exact List.mem_cons_self hd rest
    | some q =>
      simp only [firstMinRec, hq] at h
      split at h
      · simp only [Option.some.injEq] at h
        subst h
        exact List.mem_cons_of_mem hd (ih hq)
      · simp only [Option.some.injEq] at h
        subst h
        exact List.mem_cons_self hd rest

theorem firstMinRec_min {l : List (String × PyNum)} {k : String} {c : PyNum}
    (h : firstMinRec l = some (k, c)) : ∀ p ∈ l, PyNum.le c p.2 := by
  induction l generalizing k c with
  | nil => exact absurd h (by simp [firstMinRec])
  | cons hd rest ih =>
    cases hq : firstMinRec rest with
    | none =>
      have hrest : rest = [] := (firstMinRec_nil_iff rest).mp hq
      subst hrest
      simp only [firstMinRec, Option.some.injEq] at h
      intro p hp
      simp only [List.mem_singleton] at hp
      subst hp
      rw [h]
      exact PyNum.le_refl c
    | some q =>
      obtain ⟨k2, c2⟩ := q
      simp only [firstMinRec, hq] at h
      by_cases hlt : PyNum.lt c2 hd.2
      · rw [if_pos hlt] at h
        simp only [Option.some.injEq, Prod.mk.injEq] at h
        obtain ⟨hk1, hk2⟩ := h
        subst hk1; subst hk2
        intro p hp
        rcases List.mem_cons.mp hp with h1 | h2
        · subst h1; exact PyNum.le_of_lt hlt
        · exact ih hq p h2
      · rw [if_neg hlt] at h
        simp only [Option.some.injEq] at h
        have hc : c = hd.2 := (congrArg Prod.snd h).symm
        intro p hp
        rcases List.mem_cons.mp hp with h1 | h2
        · subst h1; rw [hc]; exact PyNum.le_refl _
        · rw [hc]
          exact PyNum.le_trans (PyNum.le_of_not_lt hlt) (ih hq p h2)

theorem firstMinRec_first {l : List (String × PyNum)} {k : String} {c : PyNum}
    (h : firstMinRec l = some (k, c)) :
    ∃ i, ∃ hi : i < l.length, l.get ⟨i, hi⟩ = (k, c) ∧
      ∀ j, ∀ hj : j < l.length, j < i → PyNum.lt c (l.get ⟨j, hj⟩).2 := by
  induction l generalizing k c with
  | nil => exact absurd h (by simp [firstMinRec])
  | cons hd rest ih =>
    cases hq : firstMinRec rest with
    | none =>
      simp only [firstMinRec, hq, Option.some.injEq] at h
      exact ⟨0, by simp, by simpa using h, fun j hj hji => absurd hji (by omega)⟩
    | some q =>
      obtain ⟨k2, c2⟩ := q
      simp only [firstMinRec, hq] at h
      by_cases hlt : PyNum.lt c2 hd.2
      · rw [if_pos hlt] at h
        simp only [Option.some.injEq, Prod.mk.injEq] at h
        obtain ⟨hk1, hk2⟩ := h
        subst hk1; subst hk2
        obtain ⟨i, hi, hget, hbefore⟩ := ih hq
        refine ⟨i + 1, by simpa using Nat.succ_lt_succ hi, by simpa using hget, ?_⟩
        intro j hj hji
        cases j with
        | zero => simpa using hlt
        | succ j2 =>
          have hj2 : j2 < rest.length := by simpa using hj
          have := hbefore j2 hj2 (by omega)
          simpa using this
      · rw [if_neg hlt] at h
        simp only [Option.some.injEq] at h
        refine ⟨0, by simp, ?_, fun j hj hji => absurd hji (by omega)⟩
        simpa using h

/-- Combining an already-held cheapest candidate with the first-encountered
minimum of the remaining list. -/
def resolveMin (k : String) (c : PyNum) :
    Option (String × PyNum) → Option String × Option PyNum
  | none => (some k, some c)
  | some p => if PyNum.lt p.2 c then (some p.1, some p.2) else (some k, some c)

theorem foldMinL_some (l : List (String × PyNum)) :
    ∀ k c, foldMinL l (some k, some c) = resolveMin k c (firstMinRec l) := by
  induction l with
  | nil => intro k c; rfl
  | cons hd rest ih =>
    intro k c
    have hstep : foldMinL (hd :: rest) (some k, some c) =
        foldMinL rest (stepMin (some k, some c) hd.1 hd.2) := rfl
    rw [hstep]
    by_cases hlt : PyNum.lt hd.2 c
    · have hs : stepMin (some k, some c) hd.1 hd.2 = (some hd.1, some hd.2) := by
        simp [stepMin, hlt]
      rw [hs, ih]
      cases hq : firstMinRec rest with
      | none =>
        have : firstMinRec (hd :: rest) = some hd := by
          rw [firstMinRec, hq]
        rw [this]
        simp [resolveMin, hlt]
      | some p =>
        by_cases hplt : PyNum.lt p.2 hd.2
        · have : firstMinRec (hd :: rest) = some p := by
            rw [firstMinRec, hq]; exact if_pos hplt
          rw [this]
          have hpc : PyNum.lt p.2 c := PyNum.lt_trans hplt hlt
          simp [resolveMin, hplt, hpc]
        · have : firstMinRec (hd :: rest) = some hd := by
            rw [firstMinRec, hq]; exact if_neg hplt
          rw [this]
          simp [resolveMin, hplt, hlt]
    · have hs : stepMin (some k, some c) hd.1 hd.2 = (some k, some c) := by
        simp [stepMin, hlt]
      rw [hs, ih]
      cases hq : firstMinRec rest with
      | none =>
        have : firstMinRec (hd :: rest) = some hd := by
          rw [firstMinRec, hq]
        rw [this]
        simp [resolveMin, hlt]
      | some p =>
        by_cases hplt : PyNum.lt p.2 hd.2
        · have : firstMinRec (hd :: rest) = some p := by
            rw [firstMinRec, hq]; exact if_pos hplt
          rw [this]
        · have : firstMinRec (hd :: rest) = some hd := by
            rw [firstMinRec, hq]; exact if_neg hplt
          rw [this]
          have hcp : PyNum.le c p.2 :=
            PyNum.le_trans (PyNum.le_of_not_lt hlt) (PyNum.le_of_not_lt hplt)
          have hnp : ¬ PyNum.lt p.2 c := PyNum.not_lt_of_le hcp
          simp [resolveMin, hlt, hnp]

/-- On a non-empty converted list, the loop's cheapest-so-far fold lands on
the first-encountered minimum. -/
theorem foldMinL_none (hd : String × PyNum) (rest : List (String × PyNum)) :
    ∃ k c, firstMinRec (hd :: rest) = some (k, c) ∧
      foldMinL (hd :: rest) (none, none) = (some k, some c) := by
  have hstep : foldMinL (hd :: rest) (none, none) =
      foldMinL rest (some hd.1, some hd.2) := rfl
  rw [hstep, foldMinL_some]
  cases hq : firstMinRec rest with
  | none =>
    refine ⟨hd.1, hd.2, ?_, rfl⟩
    rw [firstMinRec, hq]
  | some p =>
    by_cases hplt : PyNum.lt p.2 hd.2
    · refine ⟨p.1, p.2, ?_, ?_⟩
      · rw [firstMinRec, hq]; exact if_pos hplt
      · simp [resolveMin, hplt]
    · refine ⟨hd.1, hd.2, ?_, ?_⟩
      · rw [firstMinRec, hq]; exact if_neg hplt
      · simp [resolveMin, hplt]

theorem dictInsert_of_forall_ne {α : Type} (rt : List (String × α)) (k : String)
    (v : α) (h : ∀ p ∈ rt, p.1 ≠ k) : dictInsert rt k v = rt ++ [(k, v)] := by
  unfold dictInsert
  have hany : rt.any (fun p => p.1 = k) = false := by
    rw [List.any_eq_false]
    intro p hp
    simpa using h p hp
  rw [hany]
  simp

/-- With distinct keys that are fresh for the accumulator, the totals fold
is plain mapping. -/
theorem foldTotals_eq_map (t : PyNum) (l : List (String × PyNum)) :
    ∀ rt : List (String × String), (l.map Prod.fst).Nodup →
      (∀ p ∈ l, ∀ p2 ∈ rt, p2.1 ≠ p.1) →
      foldTotals t l rt = rt ++ l.map (fun p => (p.1, format2 (PyNum.add p.2 t))) := by
  induction l with
  | nil => intro rt _ _; simp [foldTotals]
  | cons hd rest ih =>
    intro rt hnd hfresh
    rw [List.map_cons] at hnd
    obtain ⟨hhd, hnd2⟩ := List.nodup_cons.mp hnd
    have hstep : foldTotals t (hd :: rest) rt =
        foldTotals t rest (dictInsert rt hd.1 (format2 (PyNum.add hd.2 t))) := rfl
    rw [hstep]
    have hins : dictInsert rt hd.1 (format2 (PyNum.add hd.2 t)) =
        rt ++ [(hd.1, format2 (PyNum.add hd.2 t))] :=
      dictInsert_of_forall_ne rt hd.1 _
        (fun p hp => hfresh hd (List.mem_cons_self hd rest) p hp)
    rw [hins]
    have hfresh2 : ∀ p ∈ rest, ∀ p2 ∈ rt ++ [(hd.1, format2 (PyNum.add hd.2 t))],
        p2.1 ≠ p.1 := by
      intro p hp p2 hp2
      rcases List.mem_append.mp hp2 with h1 | h2
      · exact hfresh p (List.mem_cons_of_mem hd hp) p2 h1
      · simp only [List.mem_singleton] at h2
        subst h2
        intro hcontra
        exact hhd (by rw [hcontra]; exact List.mem_map_of_mem Prod.fst hp)
    rw [ih _ hnd2 hfresh2]
    simp

theorem dictLookup_append_right {α : Type} (l1 l2 : List (String × α)) (k : String)
    (h : ∀ p ∈ l1, p.1 ≠ k) : dictLookup (l1 ++ l2) k = dictLookup l2 k := by
  induction l1 with
  | nil => rfl
  | cons hd rest ih =>
    have hne : hd.1 ≠ k := h hd (List.mem_cons_self hd rest)
    simp only [List.cons_append, dictLookup]
    rw [if_neg hne]
    exact ih (fun p hp => h p (List.mem_cons_of_mem hd hp))

theorem dictLookup_map_of_nodup {β : Type} (f : PyNum → β) :
    ∀ (l : List (String × PyNum)) (k : String) (q : PyNum),
      (l.map Prod.fst).Nodup → (k, q) ∈ l →
      dictLookup (l.map (fun p => (p.1, f p.2))) k = some (f q) := by
  intro l
  induction l with
  | nil => intro k q _ hmem; exact absurd hmem (by simp)
  | cons hd rest ih =>
    intro k q hnd hmem
    obtain ⟨k1, q1⟩ := hd
    rw [List.map_cons] at hnd
    obtain ⟨hnotin, hnd2⟩ := List.nodup_cons.mp hnd
    simp only [List.map_cons, dictLookup]
    rcases List.mem_cons.mp hmem with h1 | h2
    · obtain ⟨hk, hq⟩ := Prod.mk.inj h1
      rw [if_pos hk.symm, hq]
    · have hk1 : k1 ≠ k := by
        intro hcontra
        subst hcontra
        exact hnotin (List.mem_map.mpr ⟨(k1, q), h2, rfl⟩)
      rw [if_neg hk1]
      exact ih k q hnd2 h2

theorem convertPrices_keys :
    ∀ (kvs : List (String × JValue)) (l : List (String × PyNum)),
      convertPrices kvs = .ok l → l.map Prod.fst = kvs.map Prod.fst := by
  intro kvs
  induction kvs with
  | nil =>
    intro l h
    simp only [convertPrices, Except.ok.injEq] at h
    subst h
    rfl
  | cons p rest ih =>
    intro l h
    obtain ⟨k, v⟩ := p
    simp only [convertPrices] at h
    cases hq : pyFloat v with
    | error e => rw [hq] at h; exact absurd h (by simp)
    | ok q =>
      rw [hq] at h
      cases hrest : convertPrices rest with
      | error e => rw [hrest] at h; exact absurd h (by simp)
      | ok l2 =>
        rw [hrest] at h
        simp only [Except.ok.injEq] at h
        subst h
        simp [ih l2 hrest]

theorem convertPrices_mem :
    ∀ (kvs : List (String × JValue)) (l : List (String × PyNum)) (k : String)
      (q : PyNum), convertPrices kvs = .ok l → (k, q) ∈ l →
      ∃ v, (k, v) ∈ kvs ∧ pyFloat v = .ok q := by
  intro kvs
  induction kvs with
  | nil =>
    intro l k q h hmem
    simp only [convertPrices, Except.ok.injEq] at h
    subst h
    exact absurd hmem (by simp)
  | cons p rest ih =>
    intro l k q h hmem
    obtain ⟨k1, v1⟩ := p
    simp only [convertPrices] at h
    cases hq : pyFloat v1 with
    | error e => rw [hq] at h; exact absurd h (by simp)
    | ok q1 =>
      rw [hq] at h
      cases hrest : convertPrices rest with
      | error e => rw [hrest] at h; exact absurd h (by simp)
      | ok l2 =>
        rw [hrest] at h
        simp only [Except.ok.injEq] at h
        subst h
        rcases List.mem_cons.mp hmem with h1 | h2
        · obtain ⟨hk, hqq⟩ := Prod.mk.inj h1
          subst hk
          refine ⟨v1, List.mem_cons_self _ _, ?_⟩
          rw [hq, hqq]
        · obtain ⟨v, hv1, hv2⟩ := ih l2 k q hrest h2
          exact ⟨v, List.mem_cons_of_mem _ hv1, hv2⟩

theorem convertPrices_forward :
    ∀ (kvs : List (String × JValue)) (l : List (String × PyNum)) (k : String)
      (v : JValue), convertPrices kvs = .ok l → (k, v) ∈ kvs →
      ∃ q, pyFloat v = .ok q ∧ (k, q) ∈ l := by
  intro kvs
  induction kvs with
  | nil => intro l k v _ hmem; exact absurd hmem (by simp)
  | cons p rest ih =>
    intro l k v h hmem
    obtain ⟨k1, v1⟩ := p
    simp only [convertPrices] at h
    cases hq : pyFloat v1 with
    | error e => rw [hq] at h; exact absurd h (by simp)
    | ok q1 =>
      rw [hq] at h
      cases hrest : convertPrices rest with
      | error e => rw [hrest] at h; exact absurd h (by simp)
      | ok l2 =>
        rw [hrest] at h
        simp only [Except.ok.injEq] at h
        subst h
        rcases List.mem_cons.mp hmem with h1 | h2
        · obtain ⟨hk, hv⟩ := Prod.mk.inj h1
          subst hk; subst hv
          exact ⟨q1, hq, List.mem_cons_self _ _⟩
        · obtain ⟨q, hq1, hq2⟩ := ih l2 k v hrest h2
          exact ⟨q, hq1, List.mem_cons_of_mem _ hq2⟩

theorem PyNum.toRat_zero : PyNum.toRat ⟨0, 0⟩ = 0 := by
  simp [PyNum.toRat]

/-- When every tax value converts, `sumFloats` returns a value whose
rational meaning is the arithmetic sum of the converted values. -/
theorem sumFloats_ok :
    ∀ (vs : List JValue) (qs : List PyNum), convertVals vs = .ok qs →
      ∃ q, sumFloats vs = .ok q ∧ q.toRat = (qs.map PyNum.toRat).sum := by
  intro vs
  induction vs with
  | nil =>
    intro qs h
    simp only [convertVals, Except.ok.injEq] at h
    subst h
    exact ⟨⟨0, 0⟩, rfl, by simp [PyNum.toRat_zero]⟩
  | cons v rest ih =>
    intro qs h
    simp only [convertVals] at h
    cases hq : pyFloat v with
    | error e => rw [hq] at h; exact absurd h (by simp)
    | ok q0 =>
      rw [hq] at h
      cases hrest : convertVals rest with
      | error e => rw [hrest] at h; exact absurd h (by simp)
      | ok qs2 =>
        rw [hrest] at h
        simp only [Except.ok.injEq] at h
        subst h
        obtain ⟨r, hr1, hr2⟩ := ih qs2 hrest
        refine ⟨PyNum.add q0 r, ?_, ?_⟩
        · simp only [sumFloats, hq, hr1]
        · rw [PyNum.toRat_add, hr2]
          simp

/-- If every tax value is a number or a string, and some value is a
non-numeric string, the sum aborts with `ValueError` (the spec's
`ConversionError`). -/
theorem sumFloats_conversionError :
    ∀ vs : List JValue,
      (∀ v ∈ vs, (∃ s, v = JValue.str s) ∨ (∃ q, v = JValue.num q)) →
      (∃ v ∈ vs, ∃ s, v = JValue.str s ∧ pyFloatOfString s = none) →
      sumFloats vs = .error .conversionError := by
  intro vs
  induction vs with
  | nil =>
    intro _ hbad
    obtain ⟨v, hv, _⟩ := hbad
    exact absurd hv (by simp)
  | cons v rest ih =>
    intro hall hbad
    cases hshape : pyFloat v with
    | error e =>
      have he : e = PyErr.conversionError := by
        rcases hall v (List.mem_cons_self v rest) with ⟨s, hs⟩ | ⟨q, hq⟩
        · subst hs
          simp only [pyFloat] at hshape
          cases hps : pyFloatOfString s with
          | none => rw [hps] at hshape; exact (Except.error.inj hshape).symm
          | some q => rw [hps] at hshape; exact absurd hshape (by simp)
        · subst hq
          exact absurd hshape (by simp [pyFloat])
      subst he
      simp only [sumFloats, hshape]
    | ok q =>
      have hbadrest : ∃ v2 ∈ rest, ∃ s, v2 = JValue.str s ∧ pyFloatOfString s = none := by
        obtain ⟨v2, hv2mem, s, hv2s, hps⟩ := hbad
        rcases List.mem_cons.mp hv2mem with h1 | h2
        · exfalso
          subst h1
          subst hv2s
          simp only [pyFloat, hps] at hshape
          exact Except.noConfusion hshape
        · exact ⟨v2, h2, s, hv2s, hps⟩
      have := ih (fun v2 hv2 => hall v2 (List.mem_cons_of_mem v hv2)) hbadrest
      simp only [sumFloats, hshape, this]

theorem digitChar_isDigit (k : Nat) (h : k < 10) : (digitChar k).isDigit = true := by
  interval_cases k <;> decide

/-- Every formatted price ends in a dot followed by exactly two digits. -/
theorem format2_shape (q : PyNum) :
    ∃ pre d1 d2, format2 q = pre ++ String.mk ['.', d1, d2] ∧
      d1.isDigit = true ∧ d2.isDigit = true := by
  refine ⟨(if round2 q < 0 then "-" else "") ++ toString ((round2 q).natAbs / 100),
    digitChar ((round2 q).natAbs / 10 % 10), digitChar ((round2 q).natAbs % 10),
    ?_, ?_, ?_⟩
  · rfl
  · exact digitChar_isDigit _ (Nat.mod_lt _ (by norm_num))
  · exact digitChar_isDigit _ (Nat.mod_lt _ (by norm_num))

theorem parse_taxes_of_obj (s : String) (kvs : List (String × JValue))
    (h : json_loads s = .ok (.obj kvs)) :
    parse_taxes s = sumFloats (kvs.map Prod.snd) := by
  simp only [parse_taxes, h]

theorem parse_taxes_of_loads_error (s : String) (e : PyErr)
    (h : json_loads s = .error e) : parse_taxes s = .error e := by
  simp only [parse_taxes, h]

/-- `json.loads` can only fail with `JSONDecodeError`. -/
theorem json_loads_error_is_parseError (s : String) (e : PyErr)
    (h : json_loads s = .error e) : e = .parseError := by
  simp only [json_loads] at h
  cases hp : parseJ (2 * s.toList.length + 8) PMode.value s.toList with
  | none => simp only [hp] at h; exact (Except.error.inj h).symm
  | some pr =>
    obtain ⟨v, rest⟩ := pr
    simp only [hp] at h
    by_cases hr : (skipWs rest).isEmpty = true
    · rw [if_pos hr] at h; exact absurd h (by simp)
    · rw [if_neg hr] at h; exact (Except.error.inj h).symm

theorem parse_taxes_of_nonobj (s : String) (v : JValue)
    (h : json_loads s = .ok v) (hno : ∀ kvs, v ≠ JValue.obj kvs) :
    parse_taxes s = .error .attributeError := by
  unfold parse_taxes
  rw [h]
  cases v with
  | obj kvs => exact absurd rfl (hno kvs)
  | null => rfl
  | bool b => rfl
  | num q => rfl
  | str s2 => rfl
  | arr xs => rfl

/-- Unfolding of `main` once the field-extraction stages have succeeded. -/
theorem mainOn_eq_after (doc first spv g ext tf : JValue) (s : String)
    (h1 : extractFirstResult doc = .ok first)
    (h2 : getItem first "shown_price" = .ok spv)
    (h3 : getItem first "number_of_guests" = .ok g)
    (h4 : getItem first "ext_data" = .ok ext)
    (h5 : getItem ext "taxes" = .ok tf)
    (h6 : asJsonText tf = .ok s) :
    mainOn doc =
      match parse_taxes s with
      | .error e => .error e
      | .ok t =>
        match find_and_calculate_room_prices spv t with
        | .error e => .error e
        | .ok res =>
          match formatCheapest res.2.1 with
          | .error e => .error e
          | .ok ps =>
            .ok (⟨⟨res.1, g, ps⟩, res.2.2⟩, ⟨ps, ⟨res.1, g, ps⟩, res.2.2⟩) := by
  unfold mainOn
  rw [h1]
  simp only []
  rw [h2]
  simp only []
  rw [h3]
  simp only []
  rw [h4]
  simp only []
  rw [h5]
  simp only []
  rw [h6]

/-- A successful run determines successful stages and fixes the shape of
the output record. -/
theorem mainOn_ok_inversion (doc : JValue) (out : OutputDoc) (con : ConsoleOut)
    (h : mainOn doc = .ok (out, con)) :
    ∃ first spv g ext tf s t res ps,
      extractFirstResult doc = .ok first ∧
      getItem first "shown_price" = .ok spv ∧
      getItem first "number_of_guests" = .ok g ∧
      getItem first "ext_data" = .ok ext ∧
      getItem ext "taxes" = .ok tf ∧
      asJsonText tf = .ok s ∧
      parse_taxes s = .ok t ∧
      find_and_calculate_room_prices spv t = .ok res ∧
      formatCheapest res.2.1 = .ok ps ∧
      out = ⟨⟨res.1, g, ps⟩, res.2.2⟩ ∧
      con = ⟨ps, ⟨res.1, g, ps⟩, res.2.2⟩ := by
  unfold mainOn at h
  cases h1 : extractFirstResult doc with
  | error e => simp only [h1] at h; exact Except.noConfusion h
  | ok first =>
  simp only [h1] at h
  cases h2 : getItem first "shown_price" with
  | error e => simp only [h2] at h; exact Except.noConfusion h
  | ok spv =>
  simp only [h2] at h
  cases h3 : getItem first "number_of_guests" with
  | error e => simp only [h3] at h; exact Except.noConfusion h
  | ok g =>
  simp only [h3] at h
  cases h4 : getItem first "ext_data" with
  | error e => simp only [h4] at h; exact Except.noConfusion h
  | ok ext =>
  simp only [h4] at h
  cases h5 : getItem ext "taxes" with
  | error e => simp only [h5] at h; exact Except.noConfusion h
  | ok tf =>
  simp only [h5] at h
  cases h6 : asJsonText tf with
  | error e => simp only [h6] at h; exact Except.noConfusion h
  | ok s =>
  simp only [h6] at h
  cases h7 : parse_taxes s with
  | error e => simp only [h7] at h; exact Except.noConfusion h
  | ok t =>
  simp only [h7] at h
  cases h8 : find_and_calculate_room_prices spv t with
  | error e => simp only [h8] at h; exact Except.noConfusion h
  | ok res =>
  simp only [h8] at h
  cases h9 : formatCheapest res.2.1 with
  | error e => simp only [h9] at h; exact Except.noConfusion h
  | ok ps =>
  simp only [h9, Except.ok.injEq, Prod.mk.injEq] at h
  obtain ⟨hout, hcon⟩ := h
  exact ⟨first, spv, g, ext, tf, s, t, res, ps, rfl, h2, h3, h4, h5, h6, h7, h8, h9,
    hout.symm, hcon.symm⟩

theorem find_ok_inversion (spv : JValue) (t : PyNum)
    (res : Option String × Option PyNum × List (String × String))
    (h : find_and_calculate_room_prices spv t = .ok res) :
    ∃ sp l, pyItems spv = .ok sp ∧ convertPrices sp = .ok l ∧
      res = ((foldMinL l (none, none)).1, (foldMinL l (none, none)).2,
             foldTotals t l []) := by
  unfold find_and_calculate_room_prices at h
  cases hp : pyItems spv with
  | error e => simp only [hp] at h; exact Except.noConfusion h
  | ok sp =>
    simp only [hp] at h
    obtain ⟨l, hl⟩ := findLoop_ok_convert t sp _ _ _ h
    rw [findLoop_factor t sp l (none, none) [] hl] at h
    exact ⟨sp, l, rfl, hl, (Except.ok.inj h).symm⟩

theorem find_of_convert (sp : List (String × JValue)) (t : PyNum)
    (l : List (String × PyNum)) (hconv : convertPrices sp = .ok l) :
    find_and_calculate_room_prices (.obj sp) t =
      .ok ((foldMinL l (none, none)).1, (foldMinL l (none, none)).2,
           foldTotals t l []) := by
  unfold find_and_calculate_room_prices
  simp only [pyItems]
  exact findLoop_factor t sp l (none, none) [] hconv

theorem convert_ne_nil (sp : List (String × JValue)) (l : List (String × PyNum))
    (hconv : convertPrices sp = .ok l) (hne : sp ≠ []) : l ≠ [] := by
  intro hcontra
  subst hcontra
  have := convertPrices_keys sp [] hconv
  cases sp with
  | nil => exact hne rfl
  | cons p rest => exact List.noConfusion this.symm

/-- On a non-empty, fully convertible mapping, the resolver returns the
first-encountered minimum as witnessed by `firstMinRec`. -/
theorem find_nonempty (sp : List (String × JValue)) (t : PyNum)
    (l : List (String × PyNum)) (hconv : convertPrices sp = .ok l)
    (hne : sp ≠ []) :
    ∃ cr cp, find_and_calculate_room_prices (.obj sp) t =
        .ok (some cr, some cp, foldTotals t l []) ∧
      firstMinRec l = some (cr, cp) := by
  have hfind := find_of_convert sp t l hconv
  have hlne := convert_ne_nil sp l hconv hne
  cases hl : l with
  | nil => exact absurd hl hlne
  | cons hd rest =>
    obtain ⟨k, c, hfm, hfold⟩ := foldMinL_none hd rest
    refine ⟨k, c, ?_, hfm⟩
    rw [hl] at hfind
    rw [hfold] at hfind
    exact hfind

/-- The input document of the spec's section-8 scenario. -/
def scenarioEntry : JValue := .obj [
  ("shown_price", .obj [("Standard", .str "100.00"), ("Deluxe", .str "80.00")]),
  ("number_of_guests", .num ⟨2, 0⟩),
  ("ext_data", .obj [("taxes", .str "\x7b\"vat\": \"10\", \"service\": \"5\"\x7d")])]

def scenarioDoc : JValue := .obj [("assignment_results", .arr [scenarioEntry])]

/-- A document with the same first assignment result as `scenarioDoc` but an
extra top-level key and a second, different entry. -/
def scenarioDocB : JValue := .obj [
  ("hotel_id", .num ⟨7, 0⟩),
  ("assignment_results", .arr [scenarioEntry,
    .obj [("shown_price", .obj [("Suite", .str "999.99")]),
          ("number_of_guests", .num ⟨9, 0⟩),
          ("ext_data", .obj [("taxes", .str "\x7b\x7d")])]])]

/-- The output record the source produces on the scenario input. -/
def scenarioOutput : OutputDoc :=
  ⟨⟨some "Deluxe", .num ⟨2, 0⟩, "80.00"⟩,
   [("Standard", "115.00"), ("Deluxe", "95.00")]⟩

def scenarioConsole : ConsoleOut :=
  ⟨"80.00", ⟨some "Deluxe", .num ⟨2, 0⟩, "80.00"⟩,
   [("Standard", "115.00"), ("Deluxe", "95.00")]⟩

/-- The scenario document with an empty `shown_price` mapping. -/
def emptyPricesDoc : JValue := .obj [
  ("assignment_results", .arr [.obj [
    ("shown_price", .obj []),
    ("number_of_guests", .num ⟨2, 0⟩),
    ("ext_data", .obj [("taxes", .str "\x7b\"vat\": \"10\", \"service\": \"5\"\x7d")])]])]

/-- The scenario document with a non-numeric tax value. -/
def badTaxDoc : JValue := .obj [
  ("assignment_results", .arr [.obj [
    ("shown_price", .obj [("Standard", .str "100.00"), ("Deluxe", .str "80.00")]),
    ("number_of_guests", .num ⟨2, 0⟩),
    ("ext_data", .obj [("taxes", .str "\x7b\"vat\": \"abc\"\x7d")])]])]

/-- The scenario document with a taxes field that is not valid JSON. -/
def badJsonTaxDoc : JValue := .obj [
  ("assignment_results", .arr [.obj [
    ("shown_price", .obj [("Standard", .str "100.00"), ("Deluxe", .str "80.00")]),
    ("number_of_guests", .num ⟨2, 0⟩),
    ("ext_data", .obj [("taxes", .str "not json")])]])]

/-! ### Claims -/

/-- C5, code evaluation at the failing input: on an empty `shown_price`
mapping the source's resolver silently returns `None` room and price and an
empty totals mapping, and the run then aborts with a `TypeError` when
`f"\x7bcheapest_price:.2f\x7d"` formats `None` — not with the spec's
`EmptyInputError` — and no output file is written. -/
theorem C5_empty_prices_run :
    mainOn emptyPricesDoc = .error .typeError ∧
    decide (PyErr.typeError = PyErr.emptyInputError) = false ∧
    writtenFile emptyPricesDoc = none ∧
    find_and_calculate_room_prices (.obj []) ⟨15, 0⟩ = .ok (none, none, []) :=
  ⟨rfl, by decide, rfl, rfl⟩

/-- C7, counterexample: `"5"` is valid JSON encoding a non-object, yet
`parse_taxes` fails with `AttributeError` (from `.values()` on an `int`),
not with a parse error, refuting the claim that every non-object input
fails with `ParseError`. -/
theorem C7_counterexample :
    json_loads "5" = .ok (.num ⟨5, 0⟩) ∧
    parse_taxes "5" = .error .attributeError ∧
    decide (PyErr.attributeError = PyErr.parseError) = false :=
  ⟨rfl, rfl, by decide⟩

/-- C7, amended: a string that is not valid JSON makes `parse_taxes` fail
with `ParseError` (`json.JSONDecodeError`), and a string that is valid JSON
but encodes a non-object makes it fail with `AttributeError` instead. -/
theorem C7_amended :
    (∀ s e, json_loads s = .error e →
      e = .parseError ∧ parse_taxes s = .error .parseError) ∧
    (∀ s v, json_loads s = .ok v → (∀ kvs, v ≠ JValue.obj kvs) →
      parse_taxes s = .error .attributeError) := by
  constructor
  · intro s e h
    have he := json_loads_error_is_parseError s e h
    subst he
    exact ⟨rfl, parse_taxes_of_loads_error s _ h⟩
  · exact parse_taxes_of_nonobj

/-- C7, witness: the amended statement evaluated on `"not json"` (invalid
JSON) and `"5"` (valid JSON non-object). -/
theorem C7_amended_witness :
    (PyErr.parseError = PyErr.parseError ∧
      parse_taxes "not json" = .error .parseError) ∧
    parse_taxes "5" = .error .attributeError :=
  ⟨C7_amended.1 "not json" PyErr.parseError rfl,
   C7_amended.2 "5" (.num ⟨5, 0⟩) rfl (fun _ h => JValue.noConfusion h)⟩

/-- C9: two input documents whose `assignment_results` arrays share the
same first entry produce the same run result — the same output file and
the same console lines — whatever the remaining entries or other top-level
keys are (only `assignment_results[0]` is consumed). -/
theorem C9_only_first_entry :
    ∀ (doc1 doc2 e : JValue) (r1 r2 : List JValue),
      getItem doc1 "assignment_results" = .ok (.arr (e :: r1)) →
      getItem doc2 "assignment_results" = .ok (.arr (e :: r2)) →
      mainOn doc1 = mainOn doc2 ∧ writtenFile doc1 = writtenFile doc2 := by
  intro doc1 doc2 e r1 r2 h1 h2
  have hf1 : extractFirstResult doc1 = .ok e := by
    unfold extractFirstResult
    rw [h1]
    rfl
  have hf2 : extractFirstResult doc2 = .ok e := by
    unfold extractFirstResult
    rw [h2]
    rfl
  have hm : mainOn doc1 = mainOn doc2 := by
    unfold mainOn
    rw [hf1, hf2]
  refine ⟨hm, ?_⟩
  unfold writtenFile
  rw [hm]

/-- C9, witness: the scenario document, and the same document with an
extra top-level key and a second (different) assignment result, give the
same run result. -/
theorem C9_witness :
    mainOn scenarioDoc = mainOn scenarioDocB ∧
    writtenFile scenarioDoc = writtenFile scenarioDocB :=
  C9_only_first_entry scenarioDoc scenarioDocB scenarioEntry [] [
    .obj [("shown_price", .obj [("Suite", .str "999.99")]),
          ("number_of_guests", .num ⟨9, 0⟩),
          ("ext_data", .obj [("taxes", .str "\x7b\x7d")])]] rfl rfl

/-- C3: whenever the tax string parses to a JSON object all of whose
values convert to numbers, `parse_taxes` returns exactly the arithmetic
sum of the converted values, and on the empty object it returns exactly
zero. -/
theorem C3_tax_aggregation :
    (∀ (s : String) (kvs : List (String × JValue)) (qs : List PyNum),
      json_loads s = .ok (.obj kvs) →
      convertVals (kvs.map Prod.snd) = .ok qs →
      ∃ q, parse_taxes s = .ok q ∧ q.toRat = (qs.map PyNum.toRat).sum) ∧
    (∀ s : String, json_loads s = .ok (.obj []) →
      parse_taxes s = .ok ⟨0, 0⟩ ∧ PyNum.toRat ⟨0, 0⟩ = 0) := by
  constructor
  · intro s kvs qs hload hconv
    obtain ⟨q, hq1, hq2⟩ := sumFloats_ok (kvs.map Prod.snd) qs hconv
    refine ⟨q, ?_, hq2⟩
    rw [parse_taxes_of_obj s kvs hload]
    exact hq1
  · intro s hload
    refine ⟨?_, PyNum.toRat_zero⟩
    rw [parse_taxes_of_obj s [] hload]
    rfl

/-- C3, witness: the scenario's tax string sums to 15, and the empty
object gives zero. -/
theorem C3_witness :
    (∃ q, parse_taxes "\x7b\"vat\": \"10\", \"service\": \"5\"\x7d" = .ok q ∧
      q.toRat = ([(⟨10, 0⟩ : PyNum), ⟨5, 0⟩].map PyNum.toRat).sum) ∧
    (parse_taxes "\x7b\x7d" = .ok ⟨0, 0⟩ ∧ PyNum.toRat ⟨0, 0⟩ = 0) :=
  ⟨C3_tax_aggregation.1 "\x7b\"vat\": \"10\", \"service\": \"5\"\x7d"
    [("vat", .str "10"), ("service", .str "5")] [⟨10, 0⟩, ⟨5, 0⟩] rfl rfl,
   C3_tax_aggregation.2 "\x7b\x7d" rfl⟩

/-- C6: when the extracted tax string parses to an object whose values are
numbers or strings and some value is a non-numeric string, the whole run
fails with `ValueError` (the spec's `ConversionError`) raised by `float`,
and no output file is written. -/
theorem C6_conversion_error :
    ∀ (doc first spv g ext : JValue) (s : String)
      (kvs : List (String × JValue)),
      extractFirstResult doc = .ok first →
      getItem first "shown_price" = .ok spv →
      getItem first "number_of_guests" = .ok g →
      getItem first "ext_data" = .ok ext →
      getItem ext "taxes" = .ok (.str s) →
      json_loads s = .ok (.obj kvs) →
      (∀ p ∈ kvs, (∃ t2, p.2 = JValue.str t2) ∨ (∃ q, p.2 = JValue.num q)) →
      (∃ p ∈ kvs, ∃ t2, p.2 = JValue.str t2 ∧ pyFloatOfString t2 = none) →
      parse_taxes s = .error .conversionError ∧
      mainOn doc = .error .conversionError ∧ writtenFile doc = none := by
  intro doc first spv g ext s kvs h1 h2 h3 h4 h5 hload hall hbad
  have hsum : sumFloats (kvs.map Prod.snd) = .error .conversionError := by
    apply sumFloats_conversionError
    · intro v hv
      obtain ⟨p, hp, hpv⟩ := List.mem_map.mp hv
      subst hpv
      exact hall p hp
    · obtain ⟨p, hp, t2, ht1, ht2⟩ := hbad
      exact ⟨p.2, List.mem_map_of_mem Prod.snd hp, t2, ht1, ht2⟩
  have hpt : parse_taxes s = .error .conversionError := by
    rw [parse_taxes_of_obj s kvs hload]
    exact hsum
  have hmain : mainOn doc = .error .conversionError := by
    rw [mainOn_eq_after doc first spv g ext (.str s) s h1 h2 h3 h4 h5 rfl]
    rw [hpt]
  refine ⟨hpt, hmain, ?_⟩
  unfold writtenFile
  rw [hmain]

/-- C6, witness: the document whose tax object is `\x7b"vat": "abc"\x7d`
aborts with the conversion error and leaves no output file. -/
theorem C6_witness :
    parse_taxes "\x7b\"vat\": \"abc\"\x7d" = .error .conversionError ∧
    mainOn badTaxDoc = .error .conversionError ∧
    writtenFile badTaxDoc = none :=
  C6_conversion_error badTaxDoc
    (.obj [("shown_price", .obj [("Standard", .str "100.00"), ("Deluxe", .str "80.00")]),
           ("number_of_guests", .num ⟨2, 0⟩),
           ("ext_data", .obj [("taxes", .str "\x7b\"vat\": \"abc\"\x7d")])])
    (.obj [("Standard", .str "100.00"), ("Deluxe", .str "80.00")])
    (.num ⟨2, 0⟩)
    (.obj [("taxes", .str "\x7b\"vat\": \"abc\"\x7d")])
    "\x7b\"vat\": \"abc\"\x7d"
    [("vat", .str "abc")]
    rfl rfl rfl rfl rfl rfl
    (by
      intro p hp
      simp only [List.mem_singleton] at hp
      subst hp
      exact Or.inl ⟨"abc", rfl⟩)
    ⟨("vat", .str "abc"), by simp, "abc", rfl, rfl⟩

/-- C2: on any fully convertible `shown_price` mapping (with the distinct
keys every Python dict has), the returned `room_totals` has exactly the
input's keys in order, and each key's value is the two-decimal formatting
of its converted net price plus the total taxes; every value indeed ends in
a dot followed by exactly two digits. -/
theorem C2_room_totals :
    ∀ (sp : List (String × JValue)) (t : PyNum) (l : List (String × PyNum)),
      (sp.map Prod.fst).Nodup → convertPrices sp = .ok l →
      ∃ cr cp rt, find_and_calculate_room_prices (.obj sp) t = .ok (cr, cp, rt) ∧
        rt.map Prod.fst = sp.map Prod.fst ∧
        (∀ k v, (k, v) ∈ sp → ∃ q, pyFloat v = .ok q ∧
          dictLookup rt k = some (format2 (PyNum.add q t))) ∧
        (∀ p ∈ rt, ∃ pre d1 d2, p.2 = pre ++ String.mk ['.', d1, d2] ∧
          d1.isDigit = true ∧ d2.isDigit = true) := by
  intro sp t l hnd hconv
  have hkeys := convertPrices_keys sp l hconv
  have hndl : (l.map Prod.fst).Nodup := by rw [hkeys]; exact hnd
  have hfold : foldTotals t l [] =
      l.map (fun p => (p.1, format2 (PyNum.add p.2 t))) := by
    rw [foldTotals_eq_map t l [] hndl (fun p hp p2 hp2 => absurd hp2 (by simp))]
    simp
  refine ⟨(foldMinL l (none, none)).1, (foldMinL l (none, none)).2,
    foldTotals t l [], ?_, ?_, ?_, ?_⟩
  · have := find_of_convert sp t l hconv
    exact this
  · rw [hfold, List.map_map]
    have hcomp : (Prod.fst ∘ fun p : String × PyNum =>
        (p.1, format2 (PyNum.add p.2 t))) = Prod.fst := rfl
    rw [hcomp, hkeys]
  · intro k v hmem
    obtain ⟨q, hq1, hq2⟩ := convertPrices_forward sp l k v hconv hmem
    refine ⟨q, hq1, ?_⟩
    rw [hfold]
    exact dictLookup_map_of_nodup (fun x => format2 (PyNum.add x t)) l k q hndl hq2
  · intro p hp
    rw [hfold] at hp
    obtain ⟨p0, hp0, hpe⟩ := List.mem_map.mp hp
    rw [← hpe]
    exact format2_shape (PyNum.add p0.2 t)

/-- C2, witness: the scenario mapping with total taxes 15 yields totals
`115.00` and `95.00` under the stated key/value correspondence. -/
theorem C2_witness :
    ∃ cr cp rt, find_and_calculate_room_prices
        (.obj [("Standard", .str "100.00"), ("Deluxe", .str "80.00")]) ⟨15, 0⟩ =
        .ok (cr, cp, rt) ∧
      rt.map Prod.fst =
        ([("Standard", JValue.str "100.00"), ("Deluxe", JValue.str "80.00")].map Prod.fst) ∧
      (∀ k v, (k, v) ∈ [("Standard", JValue.str "100.00"), ("Deluxe", JValue.str "80.00")] →
        ∃ q, pyFloat v = .ok q ∧
          dictLookup rt k = some (format2 (PyNum.add q ⟨15, 0⟩))) ∧
      (∀ p ∈ rt, ∃ pre d1 d2, p.2 = pre ++ String.mk ['.', d1, d2] ∧
        d1.isDigit = true ∧ d2.isDigit = true) :=
  C2_room_totals [("Standard", .str "100.00"), ("Deluxe", .str "80.00")] ⟨15, 0⟩
    [("Standard", ⟨10000, 2⟩), ("Deluxe", ⟨8000, 2⟩)] (by decide) rfl

/-- C4: on a non-empty, fully convertible mapping, the returned room type
carries the minimum converted net price, and it is the first-encountered
entry attaining that minimum (all strictly earlier entries are strictly
more expensive). -/
theorem C4_cheapest_first_min :
    ∀ (sp : List (String × JValue)) (t : PyNum) (l : List (String × PyNum)),
      convertPrices sp = .ok l → sp ≠ [] →
      ∃ cr cp rt, find_and_calculate_room_prices (.obj sp) t =
          .ok (some cr, some cp, rt) ∧
        (cr, cp) ∈ l ∧ (∀ p ∈ l, PyNum.le cp p.2) ∧
        ∃ i, ∃ hi : i < l.length, l.get ⟨i, hi⟩ = (cr, cp) ∧
          ∀ j, ∀ hj : j < l.length, j < i → PyNum.lt cp (l.get ⟨j, hj⟩).2 := by
  intro sp t l hconv hne
  obtain ⟨cr, cp, hfind, hfm⟩ := find_nonempty sp t l hconv hne
  exact ⟨cr, cp, foldTotals t l [], hfind, firstMinRec_mem hfm,
    firstMinRec_min hfm, firstMinRec_first hfm⟩

/-- C4, witness: on the scenario mapping the cheapest entry is the one at
index 1 (`Deluxe`, 80.00), and the earlier entry is strictly dearer. -/
theorem C4_witness :
    ∃ cr cp rt, find_and_calculate_room_prices
        (.obj [("Standard", .str "100.00"), ("Deluxe", .str "80.00")]) ⟨15, 0⟩ =
        .ok (some cr, some cp, rt) ∧
      (cr, cp) ∈ [("Standard", (⟨10000, 2⟩ : PyNum)), ("Deluxe", ⟨8000, 2⟩)] ∧
      (∀ p ∈ [("Standard", (⟨10000, 2⟩ : PyNum)), ("Deluxe", ⟨8000, 2⟩)],
        PyNum.le cp p.2) ∧
      ∃ i, ∃ hi : i < [("Standard", (⟨10000, 2⟩ : PyNum)),
          ("Deluxe", ⟨8000, 2⟩)].length,
        [("Standard", (⟨10000, 2⟩ : PyNum)), ("Deluxe", ⟨8000, 2⟩)].get ⟨i, hi⟩ =
          (cr, cp) ∧
        ∀ j, ∀ hj : j < [("Standard", (⟨10000, 2⟩ : PyNum)),
            ("Deluxe", ⟨8000, 2⟩)].length, j < i →
          PyNum.lt cp ([("Standard", (⟨10000, 2⟩ : PyNum)),
            ("Deluxe", ⟨8000, 2⟩)].get ⟨j, hj⟩).2 :=
  C4_cheapest_first_min
    [("Standard", .str "100.00"), ("Deluxe", .str "80.00")] ⟨15, 0⟩
    [("Standard", ⟨10000, 2⟩), ("Deluxe", ⟨8000, 2⟩)] rfl (List.cons_ne_nil _ _)

/-- C10: on a non-empty, fully convertible mapping the returned cheapest
room is one of the input's keys and the returned cheapest price is the
numeric conversion of that key's value; on the empty mapping both returned
fields are `None` and the totals mapping is empty. -/
theorem C10_cheapest_key_value :
    (∀ (sp : List (String × JValue)) (t : PyNum) (l : List (String × PyNum)),
      convertPrices sp = .ok l → sp ≠ [] →
      ∃ cr cp rt, find_and_calculate_room_prices (.obj sp) t =
          .ok (some cr, some cp, rt) ∧
        cr ∈ sp.map Prod.fst ∧ ∃ v, (cr, v) ∈ sp ∧ pyFloat v = .ok cp) ∧
    (∀ t, find_and_calculate_room_prices (.obj []) t = .ok (none, none, [])) := by
  constructor
  · intro sp t l hconv hne
    obtain ⟨cr, cp, hfind, hfm⟩ := find_nonempty sp t l hconv hne
    have hmem := firstMinRec_mem hfm
    obtain ⟨v, hv1, hv2⟩ := convertPrices_mem sp l cr cp hconv hmem
    refine ⟨cr, cp, foldTotals t l [], hfind, ?_, v, hv1, hv2⟩
    exact List.mem_map.mpr ⟨(cr, v), hv1, rfl⟩
  · intro t
    rfl

/-- C10, witness: the non-empty clause evaluated on the scenario mapping. -/
theorem C10_witness :
    ∃ cr cp rt, find_and_calculate_room_prices
        (.obj [("Standard", .str "100.00"), ("Deluxe", .str "80.00")]) ⟨15, 0⟩ =
        .ok (some cr, some cp, rt) ∧
      cr ∈ [("Standard", JValue.str "100.00"),
            ("Deluxe", JValue.str "80.00")].map Prod.fst ∧
      ∃ v, (cr, v) ∈ [("Standard", JValue.str "100.00"),
            ("Deluxe", JValue.str "80.00")] ∧ pyFloat v = .ok cp :=
  C10_cheapest_key_value.1
    [("Standard", .str "100.00"), ("Deluxe", .str "80.00")] ⟨15, 0⟩
    [("Standard", ⟨10000, 2⟩), ("Deluxe", ⟨8000, 2⟩)] rfl (List.cons_ne_nil _ _)

/-- C8: errors are never caught — a loader failure is the run's result
unchanged; any failing stage before the Writer (extraction of
`assignment_results[0]`, of each field, the tax aggregation, or the price
resolution) makes the run abort with exactly that stage's error, and an
aborted run writes no output file. -/
theorem C8_first_error_aborts :
    (∀ e, main_pipeline (.error e) = .error e) ∧
    (∀ doc e, mainOn doc = .error e → writtenFile doc = none) ∧
    (∀ doc e, extractFirstResult doc = .error e → mainOn doc = .error e) ∧
    (∀ doc first e, extractFirstResult doc = .ok first →
      getItem first "shown_price" = .error e → mainOn doc = .error e) ∧
    (∀ doc first spv e, extractFirstResult doc = .ok first →
      getItem first "shown_price" = .ok spv →
      getItem first "number_of_guests" = .error e → mainOn doc = .error e) ∧
    (∀ doc first spv g e, extractFirstResult doc = .ok first →
      getItem first "shown_price" = .ok spv →
      getItem first "number_of_guests" = .ok g →
      getItem first "ext_data" = .error e → mainOn doc = .error e) ∧
    (∀ doc first spv g ext e, extractFirstResult doc = .ok first →
      getItem first "shown_price" = .ok spv →
      getItem first "number_of_guests" = .ok g →
      getItem first "ext_data" = .ok ext →
      getItem ext "taxes" = .error e → mainOn doc = .error e) ∧
    (∀ doc first spv g ext tf e, extractFirstResult doc = .ok first →
      getItem first "shown_price" = .ok spv →
      getItem first "number_of_guests" = .ok g →
      getItem first "ext_data" = .ok ext →
      getItem ext "taxes" = .ok tf →
      asJsonText tf = .error e → mainOn doc = .error e) ∧
    (∀ doc first spv g ext tf s e, extractFirstResult doc = .ok first →
      getItem first "shown_price" = .ok spv →
      getItem first "number_of_guests" = .ok g →
      getItem first "ext_data" = .ok ext →
      getItem ext "taxes" = .ok tf →
      asJsonText tf = .ok s →
      parse_taxes s = .error e → mainOn doc = .error e) ∧
    (∀ doc first spv g ext tf s t e, extractFirstResult doc = .ok first →
      getItem first "shown_price" = .ok spv →
      getItem first "number_of_guests" = .ok g →
      getItem first "ext_data" = .ok ext →
      getItem ext "taxes" = .ok tf →
      asJsonText tf = .ok s →
      parse_taxes s = .ok t →
      find_and_calculate_room_prices spv t = .error e →
      mainOn doc = .error e) := by
  refine ⟨fun e => rfl, ?_, ?_, ?_, ?_, ?_, ?_, ?_, ?_, ?_⟩
  · intro doc e h
    unfold writtenFile
    rw [h]
  · intro doc e h
    unfold mainOn
    rw [h]
  · intro doc first e h1 h2
    unfold mainOn
    rw [h1]; simp only []; rw [h2]
  · intro doc first spv e h1 h2 h3
    unfold mainOn
    rw [h1]; simp only []; rw [h2]; simp only []; rw [h3]
  · intro doc first spv g e h1 h2 h3 h4
    unfold mainOn
    rw [h1]; simp only []; rw [h2]; simp only []; rw [h3]; simp only []
    rw [h4]
  · intro doc first spv g ext e h1 h2 h3 h4 h5
    unfold mainOn
    rw [h1]; simp only []; rw [h2]; simp only []; rw [h3]; simp only []
    rw [h4]; simp only []; rw [h5]
  · intro doc first spv g ext tf e h1 h2 h3 h4 h5 h6
    unfold mainOn
    rw [h1]; simp only []; rw [h2]; simp only []; rw [h3]; simp only []
    rw [h4]; simp only []; rw [h5]; simp only []; rw [h6]
  · intro doc first spv g ext tf s e h1 h2 h3 h4 h5 h6 h7
    unfold mainOn
    rw [h1]; simp only []; rw [h2]; simp only []; rw [h3]; simp only []
    rw [h4]; simp only []; rw [h5]; simp only []; rw [h6]; simp only []
    rw [h7]
  · intro doc first spv g ext tf s t e h1 h2 h3 h4 h5 h6 h7 h8
    unfold mainOn
    rw [h1]; simp only []; rw [h2]; simp only []; rw [h3]; simp only []
    rw [h4]; simp only []; rw [h5]; simp only []; rw [h6]; simp only []
    rw [h7]; simp only []; rw [h8]

/-- C8, witness: the tax-parse stage failing on `"not json"` aborts the
run with the parse error and leaves no output file. -/
theorem C8_witness :
    mainOn badJsonTaxDoc = .error .parseError ∧
    writtenFile badJsonTaxDoc = none := by
  have hm : mainOn badJsonTaxDoc = .error .parseError :=
    C8_first_error_aborts.2.2.2.2.2.2.2.2.1 badJsonTaxDoc
      (.obj [("shown_price", .obj [("Standard", .str "100.00"),
                                   ("Deluxe", .str "80.00")]),
             ("number_of_guests", .num ⟨2, 0⟩),
             ("ext_data", .obj [("taxes", .str "not json")])])
      (.obj [("Standard", .str "100.00"), ("Deluxe", .str "80.00")])
      (.num ⟨2, 0⟩)
      (.obj [("taxes", .str "not json")])
      (.str "not json")
      "not json"
      PyErr.parseError
      rfl rfl rfl rfl rfl rfl rfl
  exact ⟨hm, C8_first_error_aborts.2.1 badJsonTaxDoc PyErr.parseError hm⟩

/-- C1, counterexample: on the spec's own scenario input the source puts
the cheapest room's NET price in the output's `price` field — `"80.00"`,
not the claimed tax-inclusive `"95.00"`. -/
theorem C1_counterexample :
    mainOn scenarioDoc = .ok (scenarioOutput, scenarioConsole) ∧
    scenarioOutput.cheapest_price_info.price = "80.00" ∧
    decide (("80.00" : String) = "95.00") = false :=
  ⟨rfl, rfl, by decide⟩

/-- C1, amended: in every successful run the `price` field of
`cheapest_price_info` is the two-decimal formatting of the cheapest room's
net (pre-tax) price — the minimum of the converted input prices — and on
the scenario input the output record is
`\x7broom_type: Deluxe, number_of_guests: 2, price: "80.00"\x7d` (while
`room_totals` still carries the tax-inclusive `"95.00"`). -/
theorem C1_amended :
    (∀ (doc : JValue) (out : OutputDoc) (con : ConsoleOut),
      mainOn doc = .ok (out, con) →
      ∃ first spv ext tf s t sp l cr cp,
        extractFirstResult doc = .ok first ∧
        getItem first "shown_price" = .ok spv ∧
        getItem first "ext_data" = .ok ext ∧
        getItem ext "taxes" = .ok tf ∧
        asJsonText tf = .ok s ∧
        parse_taxes s = .ok t ∧
        pyItems spv = .ok sp ∧
        convertPrices sp = .ok l ∧
        find_and_calculate_room_prices spv t =
          .ok (some cr, some cp, out.room_totals) ∧
        (cr, cp) ∈ l ∧ (∀ p ∈ l, PyNum.le cp p.2) ∧
        out.cheapest_price_info.room_type = some cr ∧
        out.cheapest_price_info.price = format2 cp) ∧
    mainOn scenarioDoc = .ok (scenarioOutput, scenarioConsole) := by
  constructor
  · intro doc out con h
    obtain ⟨first, spv, g, ext, tf, s, t, res, ps, h1, h2, h3, h4, h5, h6, h7,
      h8, h9, hout, hcon⟩ := mainOn_ok_inversion doc out con h
    obtain ⟨sp, l, hitems, hconv, hres⟩ := find_ok_inversion spv t res h8
    cases hcp : res.2.1 with
    | none =>
      rw [hcp] at h9
      exact absurd h9 (by simp [formatCheapest])
    | some cp =>
      rw [hcp] at h9
      have hps : ps = format2 cp := (Except.ok.inj h9).symm
      have hsnd : (foldMinL l (none, none)).2 = some cp := by
        rw [hres] at hcp
        exact hcp
      cases hl : l with
      | nil =>
        rw [hl] at hsnd
        exact absurd hsnd (by simp [foldMinL, List.foldl])
      | cons hd rest =>
        obtain ⟨k, c, hfm, hfold⟩ := foldMinL_none hd rest
        rw [hl] at hsnd
        rw [hfold] at hsnd
        have hc : c = cp := Option.some.inj hsnd
        subst hc
        refine ⟨first, spv, ext, tf, s, t, sp, l, k, c, h1, h2, h4, h5, h6, h7,
          hitems, hconv, ?_, ?_, ?_, ?_, ?_⟩
        · have hrt : out.room_totals = res.2.2 := by rw [hout]
          rw [hrt, h8, hres, hl, hfold]
        · rw [hl]
          exact firstMinRec_mem hfm
        · rw [hl]
          exact firstMinRec_min hfm
        · rw [hout]
          show res.1 = some k
          rw [hres, hl, hfold]
        · rw [hout]
          show ps = format2 c
          exact hps
  · rfl

/-- C1, witness: the amended statement evaluated on the scenario run. -/
theorem C1_amended_witness :
    ∃ first spv ext tf s t sp l cr cp,
      extractFirstResult scenarioDoc = .ok first ∧
      getItem first "shown_price" = .ok spv ∧
      getItem first "ext_data" = .ok ext ∧
      getItem ext "taxes" = .ok tf ∧
      asJsonText tf = .ok s ∧
      parse_taxes s = .ok t ∧
      pyItems spv = .ok sp ∧
      convertPrices sp = .ok l ∧
      find_and_calculate_room_prices spv t =
        .ok (some cr, some cp, scenarioOutput.room_totals) ∧
      (cr, cp) ∈ l ∧ (∀ p ∈ l, PyNum.le cp p.2) ∧
      scenarioOutput.cheapest_price_info.room_type = some cr ∧
      scenarioOutput.cheapest_price_info.price = format2 cp :=
  C1_amended.1 scenarioDoc scenarioOutput scenarioConsole rfl

/-! ### Well-formedness of parsed values

`find_and_calculate_room_prices` is proved above under the hypothesis that
the mapping's keys are distinct.  The following shows that hypothesis holds
for every object `json_loads` can produce (Python dicts cannot hold a key
twice), so it excludes no reachable input. -/

/-- Every object anywhere inside the value has distinct keys. -/
inductive WF : JValue → Prop where
  | null : WF .null
  | bool : ∀ b, WF (.bool b)
  | num : ∀ q, WF (.num q)
  | str : ∀ s, WF (.str s)
  | arr : ∀ xs, (∀ x ∈ xs, WF x) → WF (.arr xs)
  | obj : ∀ kvs, (kvs.map Prod.fst).Nodup → (∀ p ∈ kvs, WF p.2) →
      WF (.obj kvs)

theorem dictInsert_keys_nodup {α : Type} (kvs : List (String × α)) (k : String)
    (v : α) (h : (kvs.map Prod.fst).Nodup) :
    ((dictInsert kvs k v).map Prod.fst).Nodup := by
  unfold dictInsert
  by_cases hany : kvs.any (fun p => p.1 = k) = true
  · rw [if_pos hany]
    have hsame : (kvs.map (fun p => if p.1 = k then (k, v) else p)).map Prod.fst =
        kvs.map Prod.fst := by
      rw [List.map_map]
      apply List.map_congr_left
      intro p _
      by_cases hp : p.1 = k
      · simp [hp]
      · simp [hp]
    rw [hsame]
    exact h
  · rw [if_neg hany]
    rw [Bool.not_eq_true, List.any_eq_false] at hany
    rw [List.map_append]
    apply List.Nodup.append h (by simp)
    intro a ha hb
    simp only [List.map_cons, List.map_nil, List.mem_singleton] at hb
    subst hb
    obtain ⟨p, hp, hpa⟩ := List.mem_map.mp ha
    exact absurd (by simpa using hpa) (by simpa using hany p hp)

theorem dictInsert_mem {α : Type} (kvs : List (String × α)) (k : String) (v : α)
    (p : String × α) (hp : p ∈ dictInsert kvs k v) : p.2 = v ∨ p ∈ kvs := by
  unfold dictInsert at hp
  by_cases hany : kvs.any (fun p => p.1 = k) = true
  · rw [if_pos hany] at hp
    obtain ⟨p0, hp0, hpe⟩ := List.mem_map.mp hp
    by_cases h0 : p0.1 = k
    · rw [if_pos h0] at hpe
      left
      rw [← hpe]
    · rw [if_neg h0] at hpe
      right
      rw [← hpe]
      exact hp0
  · rw [if_neg hany] at hp
    rcases List.mem_append.mp hp with h1 | h2
    · right; exact h1
    · left
      simp only [List.mem_singleton] at h2
      rw [h2]


/-- Every value the JSON parser returns is well-formed: all its objects
have distinct keys (dicts cannot hold a key twice). -/
theorem parseJ_wf :
    ∀ (fuel : Nat) (mode : PMode) (cs : List Char) (v : JValue)
      (rest : List Char),
      parseJ fuel mode cs = some (v, rest) →
      (∀ acc, mode = .members acc →
        (acc.map Prod.fst).Nodup ∧ ∀ p ∈ acc, WF p.2) →
      (∀ acc, mode = .items acc → ∀ x ∈ acc, WF x) →
      WF v := by
  intro fuel
  induction fuel with
  | zero =>
    intro mode cs v rest h _ _
    exact absurd h (by simp [parseJ])
  | succ fuel ih =>
    intro mode cs v rest h hm hi
    cases mode with
    | value =>
      simp only [parseJ] at h
      cases hskip : skipWs cs with
      | nil => rw [hskip] at h; exact absurd h (by simp)
      | cons c r =>
        rw [hskip] at h
        simp only [] at h
        by_cases h1 : (c == lbraceC) = true
        · rw [if_pos h1] at h
          cases hs2 : skipWs r with
          | nil => rw [hs2] at h; exact absurd h (by simp)
          | cons c2 r2 =>
            rw [hs2] at h
            simp only [] at h
            by_cases h2 : (c2 == rbraceC) = true
            · rw [if_pos h2] at h
              obtain ⟨hv, -⟩ := Prod.mk.inj (Option.some.inj h)
              rw [← hv]
              exact WF.obj [] (by simp) (by simp)
            · rw [if_neg h2] at h
              refine ih (.members []) r v rest h ?_ ?_
              · intro acc hacc
                obtain rfl : ([] : List (String × JValue)) = acc :=
                  by injection hacc
                exact ⟨by simp, by simp⟩
              · intro acc hacc
                exact PMode.noConfusion hacc
        · rw [if_neg h1] at h
          by_cases h2 : (c == '[') = true
          · rw [if_pos h2] at h
            cases hs2 : skipWs r with
            | nil => rw [hs2] at h; exact absurd h (by simp)
            | cons c2 r2 =>
              rw [hs2] at h
              simp only [] at h
              by_cases h3 : (c2 == ']') = true
              · rw [if_pos h3] at h
                obtain ⟨hv, -⟩ := Prod.mk.inj (Option.some.inj h)
                rw [← hv]
                exact WF.arr [] (by simp)
              · rw [if_neg h3] at h
                refine ih (.items []) r v rest h ?_ ?_
                · intro acc hacc
                  exact PMode.noConfusion hacc
                · intro acc hacc
                  obtain rfl : ([] : List JValue) = acc := by injection hacc
                  simp
          · rw [if_neg h2] at h
            by_cases h3 : (c == '"') = true
            · rw [if_pos h3] at h
              cases hps : parseJStringChars (r.length + 1) r with
              | none => rw [hps] at h; exact absurd h (by simp)
              | some pr =>
                rw [hps] at h
                have hv : JValue.str (String.mk pr.1) = v :=
                  congrArg Prod.fst (Option.some.inj h)
                rw [← hv]
                exact WF.str _
            · rw [if_neg h3] at h
              by_cases h4 : (c == 't') = true
              · rw [if_pos h4] at h
                cases r with
                | nil => exact absurd h (by simp)
                | cons c1 r1 =>
                  cases r1 with
                  | nil => exact absurd h (by simp)
                  | cons c2 r2 =>
                    cases r2 with
                    | nil => exact absurd h (by simp)
                    | cons c3 r3 =>
                      simp only [] at h
                      by_cases h5 : (c1 == 'r' && c2 == 'u' && c3 == 'e') = true
                      · rw [if_pos h5] at h
                        obtain ⟨hv, -⟩ := Prod.mk.inj (Option.some.inj h)
                        rw [← hv]
                        exact WF.bool true
                      · rw [if_neg h5] at h; exact absurd h (by simp)
              · rw [if_neg h4] at h
                by_cases h6 : (c == 'f') = true
                · rw [if_pos h6] at h
                  cases r with
                  | nil => exact absurd h (by simp)
                  | cons c1 r1 =>
                    cases r1 with
                    | nil => exact absurd h (by simp)
                    | cons c2 r2 =>
                      cases r2 with
                      | nil => exact absurd h (by simp)
                      | cons c3 r3 =>
                        cases r3 with
                        | nil => exact absurd h (by simp)
                        | cons c4 r4 =>
                          simp only [] at h
                          by_cases h7 :
                            (c1 == 'a' && c2 == 'l' && c3 == 's' && c4 == 'e') = true
                          · rw [if_pos h7] at h
                            obtain ⟨hv, -⟩ := Prod.mk.inj (Option.some.inj h)
                            rw [← hv]
                            exact WF.bool false
                          · rw [if_neg h7] at h; exact absurd h (by simp)
                · rw [if_neg h6] at h
                  by_cases h8 : (c == 'n') = true
                  · rw [if_pos h8] at h
                    cases r with
                    | nil => exact absurd h (by simp)
                    | cons c1 r1 =>
                      cases r1 with
                      | nil => exact absurd h (by simp)
                      | cons c2 r2 =>
                        cases r2 with
                        | nil => exact absurd h (by simp)
                        | cons c3 r3 =>
                          simp only [] at h
                          by_cases h9 : (c1 == 'u' && c2 == 'l' && c3 == 'l') = true
                          · rw [if_pos h9] at h
                            obtain ⟨hv, -⟩ := Prod.mk.inj (Option.some.inj h)
                            rw [← hv]
                            exact WF.null
                          · rw [if_neg h9] at h; exact absurd h (by simp)
                  · rw [if_neg h8] at h
                    by_cases h10 : (c == '-' || c.isDigit) = true
                    · rw [if_pos h10] at h
                      cases hpn : parseJNumber (c :: r) with
                      | none => rw [hpn] at h; exact absurd h (by simp)
                      | some pr =>
                        rw [hpn] at h
                        have hv : JValue.num pr.1 = v :=
                          congrArg Prod.fst (Option.some.inj h)
                        rw [← hv]
                        exact WF.num _
                    · rw [if_neg h10] at h; exact absurd h (by simp)
    | members acc =>
      obtain ⟨hnd, hwfacc⟩ := hm acc rfl
      simp only [parseJ] at h
      cases hskip : skipWs cs with
      | nil => rw [hskip] at h; exact absurd h (by simp)
      | cons c r =>
        rw [hskip] at h
        simp only [] at h
        by_cases h1 : (c == '"') = true
        · rw [if_pos h1] at h
          cases hps : parseJStringChars (r.length + 1) r with
          | none => rw [hps] at h; exact absurd h (by simp)
          | some pr =>
            obtain ⟨key, r2⟩ := pr
            rw [hps] at h
            simp only [] at h
            cases hs2 : skipWs r2 with
            | nil => rw [hs2] at h; exact absurd h (by simp)
            | cons c3 r3 =>
              rw [hs2] at h
              simp only [] at h
              by_cases h2 : (c3 == ':') = true
              · rw [if_pos h2] at h
                cases hpv : parseJ fuel .value r3 with
                | none => rw [hpv] at h; exact absurd h (by simp)
                | some pr2 =>
                  obtain ⟨v2, r4⟩ := pr2
                  rw [hpv] at h
                  simp only [] at h
                  have hwfv2 : WF v2 :=
                    ih .value r3 v2 r4 hpv
                      (fun acc2 hacc => PMode.noConfusion hacc)
                      (fun acc2 hacc => PMode.noConfusion hacc)
                  have hacc2nd : ((dictInsert acc (String.mk key) v2).map
                      Prod.fst).Nodup :=
                    dictInsert_keys_nodup acc (String.mk key) v2 hnd
                  have hacc2wf : ∀ p ∈ dictInsert acc (String.mk key) v2,
                      WF p.2 := by
                    intro p hp
                    rcases dictInsert_mem acc (String.mk key) v2 p hp with
                      hval | hold
                    · rw [hval]; exact hwfv2
                    · exact hwfacc p hold
                  cases hs4 : skipWs r4 with
                  | nil => rw [hs4] at h; exact absurd h (by simp)
                  | cons c5 r5 =>
                    rw [hs4] at h
                    simp only [] at h
                    by_cases h3 : (c5 == ',') = true
                    · rw [if_pos h3] at h
                      refine ih (.members (dictInsert acc (String.mk key) v2))
                        r5 v rest h ?_ ?_
                      · intro acc2 hacc
                        obtain rfl : dictInsert acc (String.mk key) v2 = acc2 :=
                          by injection hacc
                        exact ⟨hacc2nd, hacc2wf⟩
                      · intro acc2 hacc
                        exact PMode.noConfusion hacc
                    · rw [if_neg h3] at h
                      by_cases h4 : (c5 == rbraceC) = true
                      · rw [if_pos h4] at h
                        obtain ⟨hv, -⟩ := Prod.mk.inj (Option.some.inj h)
                        rw [← hv]
                        exact WF.obj _ hacc2nd hacc2wf
                      · rw [if_neg h4] at h; exact absurd h (by simp)
              · rw [if_neg h2] at h; exact absurd h (by simp)
        · rw [if_neg h1] at h; exact absurd h (by simp)
    | items acc =>
      have hwfacc := hi acc rfl
      simp only [parseJ] at h
      cases hpv : parseJ fuel .value cs with
      | none => rw [hpv] at h; exact absurd h (by simp)
      | some pr =>
        obtain ⟨v2, r⟩ := pr
        rw [hpv] at h
        simp only [] at h
        have hwfv2 : WF v2 :=
          ih .value cs v2 r hpv
            (fun acc2 hacc => PMode.noConfusion hacc)
            (fun acc2 hacc => PMode.noConfusion hacc)
        have hsnoc : ∀ x ∈ acc ++ [v2], WF x := by
          intro x hx
          rcases List.mem_append.mp hx with hx1 | hx2
          · exact hwfacc x hx1
          · simp only [List.mem_singleton] at hx2
            rw [hx2]
            exact hwfv2
        cases hs2 : skipWs r with
        | nil => rw [hs2] at h; exact absurd h (by simp)
        | cons c2 r2 =>
          rw [hs2] at h
          simp only [] at h
          by_cases h1 : (c2 == ',') = true
          · rw [if_pos h1] at h
            refine ih (.items (acc ++ [v2])) r2 v rest h ?_ ?_
            · intro acc2 hacc
              exact PMode.noConfusion hacc
            · intro acc2 hacc
              obtain rfl : acc ++ [v2] = acc2 := by injection hacc
              exact hsnoc
          · rw [if_neg h1] at h
            by_cases h2 : (c2 == ']') = true
            · rw [if_pos h2] at h
              obtain ⟨hv, -⟩ := Prod.mk.inj (Option.some.inj h)
              rw [← hv]
              exact WF.arr _ hsnoc
            · rw [if_neg h2] at h; exact absurd h (by simp)

theorem json_loads_wf (s : String) (v : JValue) (h : json_loads s = .ok v) :
    WF v := by
  simp only [json_loads] at h
  cases hp : parseJ (2 * s.toList.length + 8) PMode.value s.toList with
  | none =>
    simp only [hp] at h
    exact Except.noConfusion h
  | some pr =>
    obtain ⟨v2, rest⟩ := pr
    simp only [hp] at h
    by_cases hr : (skipWs rest).isEmpty = true
    · rw [if_pos hr] at h
      have hv : v2 = v := Except.ok.inj h
      rw [← hv]
      exact parseJ_wf _ .value s.toList v2 rest hp
        (fun acc hacc => PMode.noConfusion hacc)
        (fun acc hacc => PMode.noConfusion hacc)
    · rw [if_neg hr] at h
      exact absurd h (by simp)

theorem dictLookup_mem {α : Type} :
    ∀ (kvs : List (String × α)) (k : String) (x : α),
      dictLookup kvs k = some x → ∃ k2, (k2, x) ∈ kvs := by
  intro kvs
  induction kvs with
  | nil => intro k x h; exact absurd h (by simp [dictLookup])
  | cons hd rest ih =>
    intro k x h
    obtain ⟨k1, v1⟩ := hd
    simp only [dictLookup] at h
    by_cases hk : k1 = k
    · rw [if_pos hk] at h
      refine ⟨k1, ?_⟩
      rw [← Option.some.inj h]
      exact List.mem_cons_self _ _
    · rw [if_neg hk] at h
      obtain ⟨k2, hk2⟩ := ih k x h
      exact ⟨k2, List.mem_cons_of_mem _ hk2⟩

theorem WF_getItem {v x : JValue} {k : String} (hwf : WF v)
    (h : getItem v k = .ok x) : WF x := by
  cases hwf with
  | obj kvs hnd hmem =>
    simp only [getItem] at h
    cases hl : dictLookup kvs k with
    | none => rw [hl] at h; exact absurd h (by simp)
    | some x2 =>
      rw [hl] at h
      have hx : x2 = x := Except.ok.inj h
      subst hx
      obtain ⟨k2, hk2⟩ := dictLookup_mem kvs k x2 hl
      exact hmem (k2, x2) hk2
  | null => exact absurd h (by simp [getItem])
  | bool b => exact absurd h (by simp [getItem])
  | num q => exact absurd h (by simp [getItem])
  | str s => exact absurd h (by simp [getItem])
  | arr xs hx => exact absurd h (by simp [getItem])

theorem WF_getIndex0 {v x : JValue} (hwf : WF v) (h : getIndex0 v = .ok x) :
    WF x := by
  cases hwf with
  | arr xs hx =>
    cases xs with
    | nil => exact absurd h (by simp [getIndex0])
    | cons y ys =>
      simp only [getIndex0] at h
      have hy : y = x := Except.ok.inj h
      subst hy
      exact hx y (List.mem_cons_self _ _)
  | str s =>
    simp only [getIndex0] at h
    cases hs : s.toList with
    | nil => rw [hs] at h; exact absurd h (by simp)
    | cons c cs2 =>
      rw [hs] at h
      have hv : JValue.str (String.mk [c]) = x := Except.ok.inj h
      rw [← hv]
      exact WF.str _
  | null => exact absurd h (by simp [getIndex0])
  | bool b => exact absurd h (by simp [getIndex0])
  | num q => exact absurd h (by simp [getIndex0])
  | obj kvs hnd hmem => exact absurd h (by simp [getIndex0])

/-- The distinct-keys hypothesis of the room-totals and cheapest-room
theorems excludes no reachable input: every `shown_price` object reached
from a document `json.loads` produced has distinct keys. -/
theorem shown_price_keys_nodup (s : String) (doc first spv : JValue)
    (kvs : List (String × JValue))
    (hload : json_loads s = .ok doc)
    (h1 : extractFirstResult doc = .ok first)
    (h2 : getItem first "shown_price" = .ok spv)
    (hobj : spv = .obj kvs) :
    (kvs.map Prod.fst).Nodup := by
  have hwf0 := json_loads_wf s doc hload
  have hwf1 : WF first := by
    unfold extractFirstResult at h1
    cases hg : getItem doc "assignment_results" with
    | error e => rw [hg] at h1; exact absurd h1 (by simp)
    | ok rs =>
      rw [hg] at h1
      simp only [] at h1
      exact WF_getIndex0 (WF_getItem hwf0 hg) h1
  have hwf2 : WF spv := WF_getItem hwf1 h2
  rw [hobj] at hwf2
  cases hwf2 with
  | obj kvs2 hnd hmem => exact hnd
